import Mathlib

/-!
Verification development for the consciousness-world simulation engine.

The JavaScript sources under `src/` are shallowly embedded below:
* `src/physics/WorldPhysics.js`  → namespace `WorldPhysics`
* `src/neural/NeuralNetwork.js`  → namespace `NeuralNetwork`
* `src/evolution/ConsciousEntity.js` → namespace `ConsciousEntity`
* `src/evolution/PopulationManager.js` → namespace `PopulationManager`

JavaScript numbers are modelled as real numbers (`ℝ`), grid arrays as total
functions `ℕ → ℕ → ℝ` (the in-range cells model the array contents), and every
call to `Math.random()` / `Date.now()` is routed through an explicitly injected
oracle argument, which is exactly the injectable-generator discipline the
design notes of the system call for.  Fallible operations return `Except`.
-/

set_option maxHeartbeats 1000000

noncomputable section

namespace CWorld

/-- The three states of a core (`'dormant' | 'incubated' | 'bloomed'`). -/
inductive CoreState where
  | dormant
  | incubated
  | bloomed
deriving DecidableEq

/-- The cycle order of core states: dormant → incubated → bloomed → dormant. -/
def CoreState.next : CoreState → CoreState
  | .dormant => .incubated
  | .incubated => .bloomed
  | .bloomed => .dormant

/-- The alternating phase of the world (`'emit' | 'collect'`). -/
inductive Phase where
  | emit
  | collect
deriving DecidableEq

/-- One core, mirroring the objects pushed by `initializeCores` in
`WorldPhysics.js` (the optional `moveAfterTick` property added by
`scheduleCoreMovement` is an `Option`). -/
structure Core where
  x : ℕ
  y : ℕ
  state : CoreState
  incubationTime : ℕ
  bloomTime : ℕ
  temperatureExposure : ℕ
  consecutiveHighTemp : ℕ
  id : ℕ
  moveAfterTick : Option ℕ
deriving DecidableEq

/-- One energy manifestation, mirroring the objects pushed by `updateCores`. -/
structure Energy where
  x : ℕ
  y : ℕ
  createdAt : ℕ
  active : Bool
  coreId : ℕ
deriving DecidableEq

/-- A scalar field over the grid; in-range cells `x < gridSize`, `y < gridSize`
model the JavaScript nested array. -/
abbrev Grid := ℕ → ℕ → ℝ

/-- The world state of `WorldPhysics`: `lowerDimension.temperature`,
`lowerDimension.catalyser`, `upperDimension.catalyser`, cores, energies,
tick and phase. -/
structure World where
  gridSize : ℕ
  tick : ℕ
  phase : Phase
  temperature : Grid
  catalyserLower : Grid
  catalyserUpper : Grid
  cores : List Core
  energies : List Energy

namespace WorldPhysics

/-- `Math.max(0, Math.min(1, v))`, the clamp used throughout the physics. -/
def clamp01 (v : ℝ) : ℝ := max 0 (min 1 v)

theorem clamp01_nonneg (v : ℝ) : 0 ≤ clamp01 v := le_max_left 0 _

theorem clamp01_le_one (v : ℝ) : clamp01 v ≤ 1 := by
  unfold clamp01
  rcases le_total 0 (min 1 v) with h | h
  · rw [max_eq_right h]; exact min_le_left 1 v
  · rw [max_eq_left h]; norm_num

/-- The result record of `getRawPhysicalProperties`. -/
structure RawProps where
  field1 : ℝ
  field2 : ℝ
  field3 : ℝ
  field4 : ℝ
  field5 : ℝ
  confidence : ℝ

/-- The 8-neighbourhood offsets used by `moveCore` (and, together with `(0,0)`,
by the 3×3 loops `for dx in -1..1, dy in -1..1`). -/
def moves8 : List (ℤ × ℤ) :=
  [(-1, -1), (0, -1), (1, -1), (-1, 0), (1, 0), (-1, 1), (0, 1), (1, 1)]

/-- The full 3×3 offsets, in the `dx` outer / `dy` inner order of the JS loops. -/
def offsets9 : List (ℤ × ℤ) :=
  [(-1, -1), (-1, 0), (-1, 1), (0, -1), (0, 0), (0, 1), (1, -1), (1, 0), (1, 1)]

/-- Toroidal coordinate arithmetic `(a + d + gridSize) % gridSize` on a
nonnegative base coordinate. -/
def wrap (gs : ℕ) (a : ℕ) (d : ℤ) : ℕ := (((a : ℤ) + d + gs).toNat) % gs

/-- `getRawPhysicalProperties(x, y, distance, observerEnergy)` from
`WorldPhysics.js`.  The five symmetric noise draws `Math.random()` are the
injected `noise : Fin 5 → ℝ`. -/
def getRawPhysicalProperties (w : World) (x y : ℤ) (distance : ℕ)
    (observerEnergy : ℝ) (noise : Fin 5 → ℝ) : RawProps :=
  if x < 0 ∨ (w.gridSize : ℤ) ≤ x ∨ y < 0 ∨ (w.gridSize : ℤ) ≤ y then
    ⟨0, 0, 0, 0, 0, 0⟩
  else
    let xx := x.toNat
    let yy := y.toNat
    let temp := w.temperature xx yy
    let catalyser := w.catalyserLower xx yy
    let core? := w.cores.find? (fun c => c.x = xx ∧ c.y = yy)
    let coreValue : ℝ :=
      match core? with
      | none => 0
      | some c =>
        match c.state with
        | .dormant => 0.3
        | .incubated => 0.6
        | .bloomed => 0.9
    let hasEnergy := w.energies.any (fun e => e.x = xx ∧ e.y = yy ∧ e.active)
    let energyValue : ℝ := if hasEnergy then 1.0 else 0
    let field1 := (temp * 0.7 + catalyser * 0.3) *
      (1 + Real.sin ((w.tick : ℝ) * 0.1) * 0.1)
    let field2 := (coreValue * 0.6 + temp * catalyser * 0.4) +
      Real.cos ((w.tick : ℝ) * 0.05) * 0.1
    let field3 := temp * catalyser * (1 + coreValue) + energyValue * 0.8 +
      Real.sin (((x : ℝ) + (y : ℝ) + (w.tick : ℝ)) * 0.1) * 0.1
    let field4base := temp * 0.5 + catalyser * 0.3 + coreValue * 0.2
    -- spatial context: in-bounds 3×3 neighbours (excluding the centre)
    let nbs := (offsets9.filter (fun d => d ≠ (0, 0))).filterMap (fun d =>
      let nx := x + d.1
      let ny := y + d.2
      if 0 ≤ nx ∧ nx < (w.gridSize : ℤ) ∧ 0 ≤ ny ∧ ny < (w.gridSize : ℤ) then
        some (nx.toNat, ny.toNat)
      else none)
    let neighborInfluence :=
      (nbs.map (fun p => w.temperature p.1 p.2 + w.catalyserLower p.1 p.2)).sum
    let field4 := if nbs.length > 0 then
        field4base + (neighborInfluence / nbs.length) * 0.2
      else field4base
    let baseConfidence : ℝ :=
      if distance = 0 then 1.0 else if distance = 1 then 0.9
      else if distance = 2 then 0.7 else if distance = 3 then 0.5
      else if distance = 4 then 0.3 else 0.1
    let energyMultiplier := max 0.1 (min 1.0 (observerEnergy / 100.0))
    let finalConfidence := baseConfidence * energyMultiplier
    let noiseLevel := 1 - finalConfidence
    let withNoise := fun (f : ℝ) (i : Fin 5) =>
      if distance > 0 ∨ observerEnergy < 100 then
        f + (noise i - 0.5) * (noiseLevel * 0.2 + (1 - energyMultiplier) * 0.3)
      else f
    ⟨clamp01 (withNoise field1 0), clamp01 (withNoise field2 1),
     clamp01 (withNoise field3 2), clamp01 (withNoise field4 3),
     clamp01 (withNoise 0 4), finalConfidence⟩

/-- `scheduleCoreMovement(coreId, delay)`: set `moveAfterTick = tick + delay`
on the first core with the given id (JS `Array.prototype.find` + in-place
mutation). -/
def setMoveAfter (cores : List Core) (coreId : ℕ) (t : ℕ) : List Core :=
  match cores with
  | [] => []
  | c :: rest =>
    if c.id = coreId then { c with moveAfterTick := some t } :: rest
    else c :: setMoveAfter rest coreId t

/-- `scheduleCoreMovement` on a whole world (default delay 3). -/
def scheduleCoreMovement (w : World) (coreId : ℕ) (delay : ℕ) : World :=
  { w with cores := setMoveAfter w.cores coreId (w.tick + delay) }

/-- `consumeEnergy(x, y)`: remove the first active energy at the cell, schedule
its core's relocation with delay 3, and return 10; otherwise return 0. -/
def consumeEnergy (w : World) (x y : ℕ) : ℝ × World :=
  match w.energies.findIdx? (fun e => e.x = x ∧ e.y = y ∧ e.active) with
  | none => (0, w)
  | some i =>
    let e := w.energies.getD i ⟨0, 0, 0, false, 0⟩
    let w' := scheduleCoreMovement w e.coreId 3
    (10, { w' with energies := w.energies.eraseIdx i })

/-- The randomness consumed by constructing or resetting a world:
`Math.random()` draws for the temperature noise, the upper-catalyser field and
the random core positions. -/
structure InitOracle where
  tempRand : ℕ → ℕ → ℝ
  upperRand : ℕ → ℕ → ℝ
  coreX : ℕ → ℕ
  coreY : ℕ → ℕ

/-- The randomness consumed by one `step()`: the per-cell temperature noise
draw and, per core list position, up to two `moveCore` direction draws (one
for a pending scheduled move, one for the bloom-end move). -/
structure StepOracle where
  tempNoise : ℕ → ℕ → ℝ
  moveA : ℕ → Fin 8
  moveB : ℕ → Fin 8

/-- `generateTemperatureField()`: three superposed sinusoids plus uniform
noise, normalised and clamped to `[0,1]`. -/
def generateTemperatureField (o : InitOracle) : Grid := fun x y =>
  clamp01 ((Real.sin ((x : ℝ) * 2 * Real.pi / 30) * 0.4 +
            Real.sin ((y : ℝ) * 2 * Real.pi / 45) * 0.2 +
            Real.sin (((x : ℝ) + (y : ℝ)) * 2 * Real.pi / 25) * 0.15 +
            (o.tempRand x y - 0.5) * 0.1 + 1) / 2)

/-- `initializeCores()`: 50 dormant cores at random positions. -/
def initializeCores (o : InitOracle) : List Core :=
  (List.range 50).map (fun i =>
    { x := o.coreX i, y := o.coreY i, state := .dormant, incubationTime := 0,
      bloomTime := 0, temperatureExposure := 0, consecutiveHighTemp := 0,
      id := i, moveAfterTick := none })

/-- The `WorldPhysics` constructor (`new WorldPhysics(gridSize)`):
tick 0, phase emit, generated temperature, zero lower catalyser, upper
catalyser `Math.random() * 2`, 50 dormant cores, no energies. -/
def mkWorld (gridSize : ℕ) (o : InitOracle) : World :=
  { gridSize := gridSize, tick := 0, phase := .emit,
    temperature := generateTemperatureField o,
    catalyserLower := fun _ _ => 0,
    catalyserUpper := fun x y => o.upperRand x y * 2,
    cores := initializeCores o,
    energies := [] }

/-- `reset()`: regenerates the very same initial state on the existing grid
size. -/
def reset (w : World) (o : InitOracle) : World := mkWorld w.gridSize o

/-- The list of grid cells in the `x` outer / `y` inner order of the JS loops. -/
def cellList (gs : ℕ) : List (ℕ × ℕ) :=
  (List.range gs).flatMap (fun x => (List.range gs).map (fun y => (x, y)))

/-- Point update of a grid function. -/
def setCell (g : Grid) (x y : ℕ) (v : ℝ) : Grid :=
  fun a b => if a = x ∧ b = y then v else g a b

/-- The average of the 8 toroidal neighbours of a cell. -/
def avg8 (gs : ℕ) (g : Grid) (x y : ℕ) : ℝ :=
  (moves8.map (fun d => g (wrap gs x d.1) (wrap gs y d.2))).sum / 8

/-- `shiftTemperature()`: shift one cell along x with wraparound, then blend
each cell 90%/10% with its 8-neighbour average plus noise, clamped to
`[0,1]`.  The JS diffusion loop reads and writes the same `newTemperature`
array in place, so it is a sequential fold over the cells in loop order. -/
def shiftTemperature (gs : ℕ) (temp : Grid) (noise : ℕ → ℕ → ℝ) : Grid :=
  let shifted : Grid := fun x y => temp (wrap gs x (-1)) y
  (cellList gs).foldl
    (fun g p =>
      setCell g p.1 p.2
        (clamp01 (g p.1 p.2 * (1 - 0.1) + avg8 gs g p.1 p.2 * 0.1 +
          (noise p.1 p.2 - 0.5) * 0.02)))
    shifted

/-- `emitPhase()`: `catalyserLower += catalyserUpper`, `catalyserUpper *= 0.8`
on every cell. -/
def emitPhase (lower upper : Grid) : Grid × Grid :=
  (fun x y => lower x y + upper x y, fun x y => upper x y * 0.8)

/-- The in-bounds 3×3 neighbourhood (centre included, no wraparound) used by
`collectPhase`. -/
def collectNbs (gs : ℕ) (x y : ℕ) : List (ℕ × ℕ) :=
  offsets9.filterMap (fun d =>
    let nx := (x : ℤ) + d.1
    let ny := (y : ℤ) + d.2
    if 0 ≤ nx ∧ nx < (gs : ℤ) ∧ 0 ≤ ny ∧ ny < (gs : ℤ) then
      some (nx.toNat, ny.toNat)
    else none)

/-- Total upper-catalyser density of a source cell's neighbourhood. -/
def totalDensity (gs : ℕ) (upper : Grid) (x y : ℕ) : ℝ :=
  ((collectNbs gs x y).map (fun p => upper p.1 p.2)).sum

/-- `collectPhase()`: each positive `catalyserLower` cell redistributes its
value into the 3×3 neighbourhood of `catalyserUpper`, proportionally to the
neighbours' densities (dropped if the total density is 0); source cells are
cleared and `catalyserUpper` is clamped to `≤ 2`.  The source loop distributes
per source; the equivalent per-destination formulation sums, over every source
cell having this cell in its neighbourhood, the proportional share. -/
def collectPhase (gs : ℕ) (lower upper : Grid) : Grid × Grid :=
  let newCat : Grid := fun x y =>
    ((cellList gs).map (fun s =>
      if lower s.1 s.2 > 0 ∧ totalDensity gs upper s.1 s.2 > 0 ∧
          (x, y) ∈ collectNbs gs s.1 s.2 then
        lower s.1 s.2 * (upper x y / totalDensity gs upper s.1 s.2)
      else 0)).sum
  (fun x y => if lower x y > 0 then 0 else lower x y,
   fun x y => min 2 (upper x y + newCat x y))

/-- `moveCore(core)`: relocate the core to a random adjacent cell
(8-neighbourhood, toroidal). -/
def moveCore (gs : ℕ) (mv : Fin 8) (c : Core) : Core :=
  let d := moves8.get ⟨mv, by cases mv with | mk v h => simpa [moves8] using h⟩
  { c with x := wrap gs c.x d.1, y := wrap gs c.y d.2 }

/-- The lazy scheduled relocation at the start of a core's processing:
`if (core.moveAfterTick && this.tick >= core.moveAfterTick)` (the JS guard is
truthiness, so a stored 0 — which never occurs — would not trigger). -/
def afterPendingMove (gs tick : ℕ) (mv : Fin 8) (c : Core) : Core :=
  match c.moveAfterTick with
  | some m => if m ≠ 0 ∧ m ≤ tick then
      { moveCore gs mv c with moveAfterTick := none }
    else c
  | none => c

/-- The dormant → incubated transition of `updateCores`
(`if (core.state === 'dormant' && catalyserAmount > 0.2)`). -/
def dormantCheck (tick : ℕ) (cat : ℝ) (c1 : Core) : Core :=
  if c1.state = .dormant ∧ cat > 0.2 then
    { c1 with state := .incubated, incubationTime := tick,
              consecutiveHighTemp := 0 }
  else c1

/-- The incubated block of `updateCores`: count consecutive high-temperature
passes, bloom at 5 and push an energy manifestation at the core's cell. -/
def incubatedBlock (tick : ℕ) (t : ℝ) (st : Grid × List Energy) (c2 : Core) :
    (Grid × List Energy) × Core :=
  if c2.state = .incubated then
    if t > 0.2 then
      if c2.consecutiveHighTemp + 1 ≥ 5 then
        ((st.1, st.2 ++ [⟨c2.x, c2.y, tick, true, c2.id⟩]),
         { c2 with state := .bloomed, bloomTime := tick,
                   consecutiveHighTemp := c2.consecutiveHighTemp + 1 })
      else (st, { c2 with consecutiveHighTemp := c2.consecutiveHighTemp + 1 })
    else (st, { c2 with consecutiveHighTemp := 0 })
  else (st, c2)

/-- The bloomed → dormant block of `updateCores`
(`if (core.state === 'bloomed' && this.tick - core.bloomTime >= 5)`):
release 0.1 catalyser locally and relocate the core. -/
def bloomedBlock (gs tick : ℕ) (mvB : Fin 8)
    (r2 : (Grid × List Energy) × Core) : (Grid × List Energy) × Core :=
  if r2.2.state = .bloomed ∧ r2.2.bloomTime + 5 ≤ tick then
    ((setCell r2.1.1 r2.2.x r2.2.y (r2.1.1 r2.2.x r2.2.y + 0.1), r2.1.2),
     moveCore gs mvB { r2.2 with state := .dormant, consecutiveHighTemp := 0 })
  else r2

/-- Processing of one core inside `updateCores`: pending move, then the
dormant → incubated, incubated (→ bloomed), and bloomed → dormant blocks, in
source order, threading the lower catalyser and the energies list. -/
def processCore (gs tick : ℕ) (temp : Grid) (mvA mvB : Fin 8)
    (st : Grid × List Energy) (c : Core) : (Grid × List Energy) × Core :=
  let c1 := afterPendingMove gs tick mvA c
  let c2 := dormantCheck tick (st.1 c1.x c1.y) c1
  bloomedBlock gs tick mvB (incubatedBlock tick (temp c2.x c2.y) st c2)

/-- The `forEach` over the cores of `updateCores`, threading the lower
catalyser and the energies list, with the per-core oracle index. -/
def coresPass (gs tick : ℕ) (temp : Grid) (mvA mvB : ℕ → Fin 8) (idx : ℕ)
    (st : Grid × List Energy) : List Core → (Grid × List Energy) × List Core
  | [] => (st, [])
  | c :: rest =>
    let r := processCore gs tick temp (mvA idx) (mvB idx) st c
    let rr := coresPass gs tick temp mvA mvB (idx + 1) r.1 rest
    (rr.1, r.2 :: rr.2)

/-- `updateCores()`: process every core, then expire energies older than 5
ticks (the filter drops exactly the entries with `tick - createdAt >= 5`). -/
def updateCores (w : World) (o : StepOracle) : World :=
  let r := coresPass w.gridSize w.tick w.temperature o.moveA o.moveB 0
    (w.catalyserLower, w.energies) w.cores
  { w with cores := r.2,
           catalyserLower := r.1.1,
           energies := r.1.2.filter (fun e => w.tick < e.createdAt + 5) }

/-- `step()`: shift temperature, run the emit or collect phase (incrementing
the tick after a collect), then update cores. -/
def step (w : World) (o : StepOracle) : World :=
  let w1 := { w with
    temperature := shiftTemperature w.gridSize w.temperature o.tempNoise }
  let w2 :=
    match w1.phase with
    | .emit =>
      let p := emitPhase w1.catalyserLower w1.catalyserUpper
      { w1 with catalyserLower := p.1, catalyserUpper := p.2,
                phase := .collect }
    | .collect =>
      let p := collectPhase w1.gridSize w1.catalyserLower w1.catalyserUpper
      { w1 with catalyserLower := p.1, catalyserUpper := p.2,
                phase := .emit, tick := w1.tick + 1 }
  updateCores w2 o

/-! ### Helper lemmas about `setMoveAfter`, `findIdx?` and `eraseIdx` -/

theorem setMoveAfter_length (cs : List Core) (cid t : ℕ) :
    (setMoveAfter cs cid t).length = cs.length := by
  induction cs with
  | nil => rfl
  | cons c rest ih =>
    by_cases h : c.id = cid <;> simp [setMoveAfter, h, ih]

theorem setMoveAfter_get (cs : List Core) (cid t : ℕ) (i : ℕ)
    (h : i < cs.length) (h' : i < (setMoveAfter cs cid t).length) :
    ((setMoveAfter cs cid t).get ⟨i, h'⟩ = cs.get ⟨i, h⟩ ∧
      ((cs.get ⟨i, h⟩).id = cid → ∃ k, k < i ∧ ∃ hk : k < cs.length,
        (cs.get ⟨k, hk⟩).id = cid)) ∨
    ((setMoveAfter cs cid t).get ⟨i, h'⟩ =
        { cs.get ⟨i, h⟩ with moveAfterTick := some t } ∧
      (cs.get ⟨i, h⟩).id = cid ∧
      ∀ k, k < i → ∀ hk : k < cs.length, (cs.get ⟨k, hk⟩).id ≠ cid) := by
  induction cs generalizing i with
  | nil => simp at h
  | cons c rest ih =>
    by_cases hc : c.id = cid
    · cases i with
      | zero => right; simp [setMoveAfter, hc]
      | succ j =>
        left
        constructor
        · simp [setMoveAfter, hc]
        · intro _
          exact ⟨0, Nat.succ_pos j, Nat.succ_pos _, hc⟩
    · cases i with
      | zero => left; simp [setMoveAfter, hc]
      | succ j =>
        have hj : j < rest.length := by simpa using h
        have hj' : j < (setMoveAfter rest cid t).length := by
          rw [setMoveAfter_length]; exact hj
        rcases ih j hj hj' with ⟨heq, hdup⟩ | ⟨heq, hid, hfirst⟩
        · left
          constructor
          · simpa [setMoveAfter, hc] using heq
          · intro hid
            rcases hdup hid with ⟨k, hki, hk, hkid⟩
            exact ⟨k + 1, Nat.succ_lt_succ hki, Nat.succ_lt_succ hk, hkid⟩
        · right
          refine ⟨by simpa [setMoveAfter, hc] using heq, hid, ?_⟩
          intro k hki hk
          cases k with
          | zero => simpa using hc
          | succ m =>
            have hm : m < rest.length := by simpa using hk
            simpa using hfirst m (Nat.lt_of_succ_lt_succ hki) hm

theorem findIdx?_first {α : Type} (p : α → Bool) (l1 l2 : List α) (e : α)
    (h1 : ∀ a ∈ l1, p a = false) (he : p e = true) :
    List.findIdx? p (l1 ++ e :: l2) = some l1.length := by
  induction l1 with
  | nil => simp [List.findIdx?, he]
  | cons a rest ih =>
    have ha : p a = false := h1 a (by simp)
    have ihh := ih (fun b hb => h1 b (by simp [hb]))
    simp only [List.cons_append, List.findIdx?, ha]
    simp [ihh, Option.map_some]

theorem eraseIdx_middle {α : Type} (l1 l2 : List α) (e : α) :
    (l1 ++ e :: l2).eraseIdx l1.length = l1 ++ l2 := by
  induction l1 with
  | nil => simp [List.eraseIdx]
  | cons a rest ih => simp [List.eraseIdx, ih]

theorem getD_middle {α : Type} (l1 l2 : List α) (e d : α) :
    (l1 ++ e :: l2).getD l1.length d = e := by
  induction l1 with
  | nil => simp [List.getD]
  | cons a rest ih => simpa [List.getD] using ih

/-! ### C9 and C10 -/

/-- C9: for every out-of-bounds coordinate pair (`x < 0`, `x ≥ gridSize`,
`y < 0`, or `y ≥ gridSize`) and any distance and observer energy,
`getRawPhysicalProperties` returns all five fields equal to 0 with
confidence 0.  The operation is modelled as a total function whose
out-of-bounds guard returns the neutral record, so no error is possible. -/
theorem getRawPhysicalProperties_out_of_bounds (w : World) (x y : ℤ)
    (d : ℕ) (en : ℝ) (noise : Fin 5 → ℝ)
    (h : x < 0 ∨ (w.gridSize : ℤ) ≤ x ∨ y < 0 ∨ (w.gridSize : ℤ) ≤ y) :
    getRawPhysicalProperties w x y d en noise = ⟨0, 0, 0, 0, 0, 0⟩ := by
  unfold getRawPhysicalProperties
  rw [if_pos h]

/-- A minimal concrete world used by witnesses. -/
def tinyWorld : World :=
  { gridSize := 1, tick := 0, phase := .emit,
    temperature := fun _ _ => 0, catalyserLower := fun _ _ => 0,
    catalyserUpper := fun _ _ => 0, cores := [], energies := [] }

/-- Witness for C9 at the concrete out-of-bounds coordinate `(-1, 0)`. -/
theorem getRawPhysicalProperties_out_of_bounds_witness :
    ((-1 : ℤ) < 0 ∨ (tinyWorld.gridSize : ℤ) ≤ -1 ∨ (0 : ℤ) < 0 ∨
      (tinyWorld.gridSize : ℤ) ≤ 0) ∧
    getRawPhysicalProperties tinyWorld (-1) 0 3 50 (fun _ => 0) =
      ⟨0, 0, 0, 0, 0, 0⟩ :=
  ⟨Or.inl (by norm_num),
   getRawPhysicalProperties_out_of_bounds tinyWorld (-1) 0 3 50 (fun _ => 0)
     (Or.inl (by norm_num))⟩

/-- C10: when two or more active energy manifestations occupy the same cell,
`consumeEnergy(x, y)` removes exactly the earliest-inserted match, schedules
only that energy's core for relocation (the first core carrying that id gets
`moveAfterTick = tick + 3`; every core with a different id is untouched),
returns 10, and leaves every other energy manifestation unchanged. -/
theorem consumeEnergy_duplicate_cell (w : World) (x y : ℕ)
    (l1 l2 : List Energy) (e : Energy)
    (hsplit : w.energies = l1 ++ e :: l2)
    (he : e.x = x ∧ e.y = y ∧ e.active = true)
    (hfirst : ∀ e' ∈ l1, ¬(e'.x = x ∧ e'.y = y ∧ e'.active = true))
    (_hmore : ∃ e' ∈ l2, e'.x = x ∧ e'.y = y ∧ e'.active = true) :
    (consumeEnergy w x y).1 = 10 ∧
    (consumeEnergy w x y).2.energies = l1 ++ l2 ∧
    (consumeEnergy w x y).2.cores =
      setMoveAfter w.cores e.coreId (w.tick + 3) ∧
    (consumeEnergy w x y).2.temperature = w.temperature ∧
    (consumeEnergy w x y).2.catalyserLower = w.catalyserLower ∧
    (consumeEnergy w x y).2.catalyserUpper = w.catalyserUpper ∧
    (consumeEnergy w x y).2.tick = w.tick ∧
    ∀ cid t i (h : i < w.cores.length)
      (h' : i < (setMoveAfter w.cores cid t).length),
      ((setMoveAfter w.cores cid t).get ⟨i, h'⟩ = w.cores.get ⟨i, h⟩ ∨
        ((setMoveAfter w.cores cid t).get ⟨i, h'⟩ =
            { w.cores.get ⟨i, h⟩ with moveAfterTick := some t } ∧
          (w.cores.get ⟨i, h⟩).id = cid)) := by
  have hfind : List.findIdx?
      (fun e' => decide (e'.x = x ∧ e'.y = y ∧ e'.active = true)) w.energies =
      some l1.length := by
    rw [hsplit]
    apply findIdx?_first
    · intro a ha
      simpa using hfirst a ha
    · simpa using he
  have hgetd : w.energies.getD l1.length ⟨0, 0, 0, false, 0⟩ = e := by
    rw [hsplit]; exact getD_middle l1 l2 e _
  have herase : w.energies.eraseIdx l1.length = l1 ++ l2 := by
    rw [hsplit]; exact eraseIdx_middle l1 l2 e
  have hmain : consumeEnergy w x y =
      (10, { scheduleCoreMovement w e.coreId 3 with energies := l1 ++ l2 }) := by
    unfold consumeEnergy
    rw [hfind]
    simp only [hgetd, herase]
  refine ⟨by rw [hmain], by rw [hmain], by rw [hmain]; rfl,
    by rw [hmain]; rfl, by rw [hmain]; rfl, by rw [hmain]; rfl,
    by rw [hmain]; rfl, ?_⟩
  intro cid t i h h'
  rcases setMoveAfter_get w.cores cid t i h h' with ⟨heq, _⟩ | ⟨heq, hid, _⟩
  · exact Or.inl heq
  · exact Or.inr ⟨heq, hid⟩

/-- A concrete world with two active energy manifestations on cell `(2,2)`. -/
def dupEnergyWorld : World :=
  { gridSize := 3, tick := 7, phase := .emit,
    temperature := fun _ _ => 0, catalyserLower := fun _ _ => 0,
    catalyserUpper := fun _ _ => 0,
    cores := [⟨0, 0, .dormant, 0, 0, 0, 0, 5, none⟩,
              ⟨1, 1, .bloomed, 0, 0, 0, 0, 9, none⟩],
    energies := [⟨2, 2, 3, true, 5⟩, ⟨2, 2, 4, true, 9⟩] }

/-- Witness for C10 on `dupEnergyWorld`: the earliest-inserted energy at
`(2,2)` is consumed, its core (id 5) is scheduled, and the later duplicate
survives. -/
theorem consumeEnergy_duplicate_cell_witness :
    dupEnergyWorld.energies = [] ++ ⟨2, 2, 3, true, 5⟩ :: [⟨2, 2, 4, true, 9⟩] ∧
    (consumeEnergy dupEnergyWorld 2 2).1 = 10 ∧
    (consumeEnergy dupEnergyWorld 2 2).2.energies = [⟨2, 2, 4, true, 9⟩] ∧
    (consumeEnergy dupEnergyWorld 2 2).2.cores =
      setMoveAfter dupEnergyWorld.cores 5 10 := by
  have h := consumeEnergy_duplicate_cell dupEnergyWorld 2 2 []
    [⟨2, 2, 4, true, 9⟩] ⟨2, 2, 3, true, 5⟩ rfl (by decide)
    (by intro e' he'; simp at he')
    ⟨⟨2, 2, 4, true, 9⟩, by simp⟩
  exact ⟨rfl, h.1, by simpa using h.2.1, by simpa using h.2.2.1⟩

/-! ### C3: field ranges on reachable states -/

/-- `Math.random()` draws lie in `[0, 1)`; this is the only assumption made
about the injected initialisation randomness. -/
def GoodInit (o : InitOracle) : Prop :=
  ∀ x y, 0 ≤ o.upperRand x y ∧ o.upperRand x y < 1

/-- The worlds reachable by any sequence of `step()` calls from a freshly
constructed or reset world. -/
inductive Reachable : World → Prop
  | init (gs : ℕ) (o : InitOracle) (ho : GoodInit o) : Reachable (mkWorld gs o)
  | resetW (w : World) (o : InitOracle) (hw : Reachable w) (ho : GoodInit o) :
      Reachable (reset w o)
  | stepW (w : World) (o : StepOracle) (hw : Reachable w) :
      Reachable (step w o)

/-- The invariant: temperature in `[0,1]`, lower catalyser nonnegative, upper
catalyser in `[0,2]`, on every cell. -/
def FieldsInRange (w : World) : Prop :=
  ∀ x y, (0 ≤ w.temperature x y ∧ w.temperature x y ≤ 1) ∧
    0 ≤ w.catalyserLower x y ∧
    (0 ≤ w.catalyserUpper x y ∧ w.catalyserUpper x y ≤ 2)

theorem setCell_bounds {g : Grid} {lo hi : ℝ}
    (hg : ∀ x y, lo ≤ g x y ∧ g x y ≤ hi) {a b : ℕ} {v : ℝ}
    (hv : lo ≤ v ∧ v ≤ hi) :
    ∀ x y, lo ≤ setCell g a b v x y ∧ setCell g a b v x y ≤ hi := by
  intro x y
  unfold setCell
  by_cases h : x = a ∧ y = b
  · rw [if_pos h]; exact hv
  · rw [if_neg h]; exact hg x y

theorem shiftTemperature_bounds (gs : ℕ) (temp : Grid) (noise : ℕ → ℕ → ℝ)
    (h : ∀ x y, 0 ≤ temp x y ∧ temp x y ≤ 1) :
    ∀ x y, 0 ≤ shiftTemperature gs temp noise x y ∧
      shiftTemperature gs temp noise x y ≤ 1 := by
  unfold shiftTemperature
  generalize cellList gs = l
  generalize hsh : (fun x y => temp (wrap gs x (-1)) y : Grid) = g
  have hg : ∀ x y, 0 ≤ g x y ∧ g x y ≤ 1 := by
    intro x y; rw [← hsh]; exact h _ _
  clear hsh h
  induction l generalizing g with
  | nil => exact hg
  | cons p rest ih =>
    exact ih _ (setCell_bounds hg ⟨clamp01_nonneg _, clamp01_le_one _⟩)

theorem emitPhase_bounds (lower upper : Grid)
    (hl : ∀ x y, 0 ≤ lower x y)
    (hu : ∀ x y, 0 ≤ upper x y ∧ upper x y ≤ 2) :
    (∀ x y, 0 ≤ (emitPhase lower upper).1 x y) ∧
    (∀ x y, 0 ≤ (emitPhase lower upper).2 x y ∧
      (emitPhase lower upper).2 x y ≤ 2) := by
  constructor
  · intro x y
    exact add_nonneg (hl x y) (hu x y).1
  · intro x y
    simp only [emitPhase]
    constructor
    · exact mul_nonneg (hu x y).1 (by norm_num)
    · nlinarith [(hu x y).2, (hu x y).1]

theorem collectPhase_bounds (gs : ℕ) (lower upper : Grid)
    (hl : ∀ x y, 0 ≤ lower x y)
    (hu : ∀ x y, 0 ≤ upper x y ∧ upper x y ≤ 2) :
    (∀ x y, 0 ≤ (collectPhase gs lower upper).1 x y) ∧
    (∀ x y, 0 ≤ (collectPhase gs lower upper).2 x y ∧
      (collectPhase gs lower upper).2 x y ≤ 2) := by
  constructor
  · intro x y
    simp only [collectPhase]
    by_cases h : lower x y > 0
    · rw [if_pos h]
    · rw [if_neg h]; exact hl x y
  · intro x y
    have hcat : 0 ≤ ((cellList gs).map (fun s =>
        if lower s.1 s.2 > 0 ∧ totalDensity gs upper s.1 s.2 > 0 ∧
            (x, y) ∈ collectNbs gs s.1 s.2 then
          lower s.1 s.2 * (upper x y / totalDensity gs upper s.1 s.2)
        else 0)).sum := by
      apply List.sum_nonneg
      intro v hv
      rcases List.mem_map.mp hv with ⟨s, _, rfl⟩
      by_cases hc : lower s.1 s.2 > 0 ∧ totalDensity gs upper s.1 s.2 > 0 ∧
          (x, y) ∈ collectNbs gs s.1 s.2
      · rw [if_pos hc]
        exact mul_nonneg (le_of_lt hc.1)
          (div_nonneg (hu x y).1 (le_of_lt hc.2.1))
      · rw [if_neg hc]
    constructor
    · exact le_min (by norm_num) (add_nonneg (hu x y).1 hcat)
    · exact min_le_left _ _

theorem incubatedBlock_grid (tick : ℕ) (t : ℝ) (st : Grid × List Energy)
    (c2 : Core) : (incubatedBlock tick t st c2).1.1 = st.1 := by
  unfold incubatedBlock
  split_ifs <;> rfl

theorem bloomedBlock_lower_nonneg (gs tick : ℕ) (mvB : Fin 8)
    (r2 : (Grid × List Energy) × Core) (h : ∀ x y, 0 ≤ r2.1.1 x y) :
    ∀ x y, 0 ≤ (bloomedBlock gs tick mvB r2).1.1 x y := by
  unfold bloomedBlock
  split_ifs with hc
  · intro x y
    dsimp only
    unfold setCell
    split
    · have := h r2.2.x r2.2.y
      linarith
    · exact h x y
  · exact h

theorem processCore_lower_nonneg (gs tick : ℕ) (temp : Grid) (mvA mvB : Fin 8)
    (st : Grid × List Energy) (c : Core)
    (h : ∀ x y, 0 ≤ st.1 x y) :
    ∀ x y, 0 ≤ (processCore gs tick temp mvA mvB st c).1.1 x y := by
  unfold processCore
  apply bloomedBlock_lower_nonneg
  rw [incubatedBlock_grid]
  exact h

theorem coresPass_lower_nonneg (gs tick : ℕ) (temp : Grid)
    (mvA mvB : ℕ → Fin 8) (idx : ℕ) (st : Grid × List Energy)
    (cs : List Core) (h : ∀ x y, 0 ≤ st.1 x y) :
    ∀ x y, 0 ≤ (coresPass gs tick temp mvA mvB idx st cs).1.1 x y := by
  induction cs generalizing idx st with
  | nil => exact h
  | cons c rest ih =>
    exact ih (idx + 1) _ (processCore_lower_nonneg gs tick temp _ _ st c h)

theorem updateCores_fields (w : World) (o : StepOracle) :
    (updateCores w o).temperature = w.temperature ∧
    (updateCores w o).catalyserUpper = w.catalyserUpper ∧
    (updateCores w o).gridSize = w.gridSize := ⟨rfl, rfl, rfl⟩

theorem updateCores_lower_nonneg (w : World) (o : StepOracle)
    (h : ∀ x y, 0 ≤ w.catalyserLower x y) :
    ∀ x y, 0 ≤ (updateCores w o).catalyserLower x y := by
  unfold updateCores
  exact coresPass_lower_nonneg _ _ _ _ _ _ _ _ h

theorem mkWorld_fieldsInRange (gs : ℕ) (o : InitOracle) (ho : GoodInit o) :
    FieldsInRange (mkWorld gs o) := by
  intro x y
  refine ⟨⟨clamp01_nonneg _, clamp01_le_one _⟩, le_refl 0, ?_, ?_⟩
  · exact mul_nonneg (ho x y).1 (by norm_num)
  · have := (ho x y).2
    simp only [mkWorld]
    nlinarith

theorem step_fieldsInRange (w : World) (o : StepOracle)
    (h : FieldsInRange w) : FieldsInRange (step w o) := by
  have htemp : ∀ x y, 0 ≤ w.temperature x y ∧ w.temperature x y ≤ 1 :=
    fun x y => (h x y).1
  have hlow : ∀ x y, 0 ≤ w.catalyserLower x y := fun x y => (h x y).2.1
  have hupp : ∀ x y, 0 ≤ w.catalyserUpper x y ∧ w.catalyserUpper x y ≤ 2 :=
    fun x y => (h x y).2.2
  unfold step
  cases hp : w.phase
  · -- emit phase
    simp only [hp]
    intro x y
    have hs := shiftTemperature_bounds w.gridSize w.temperature o.tempNoise
      htemp
    have he := emitPhase_bounds w.catalyserLower w.catalyserUpper hlow hupp
    refine ⟨?_, ?_, ?_⟩
    · exact hs x y
    · exact updateCores_lower_nonneg _ o (fun a b => he.1 a b) x y
    · exact he.2 x y
  · -- collect phase
    simp only [hp]
    intro x y
    have hs := shiftTemperature_bounds w.gridSize w.temperature o.tempNoise
      htemp
    have hc := collectPhase_bounds w.gridSize w.catalyserLower
      w.catalyserUpper hlow hupp
    refine ⟨?_, ?_, ?_⟩
    · exact hs x y
    · exact updateCores_lower_nonneg _ o (fun a b => hc.1 a b) x y
    · exact hc.2 x y

/-- C3: on every reachable world state (any sequence of `step()` calls from a
freshly constructed or reset world, with `Math.random()` draws in `[0,1)`),
every temperature cell lies in `[0,1]`, every `catalyserLower` cell is `≥ 0`,
and every `catalyserUpper` cell lies in `[0,2]`. -/
theorem reachable_fields_in_range (w : World) (h : Reachable w) :
    ∀ x y, x < w.gridSize → y < w.gridSize →
      (0 ≤ w.temperature x y ∧ w.temperature x y ≤ 1) ∧
      0 ≤ w.catalyserLower x y ∧
      (0 ≤ w.catalyserUpper x y ∧ w.catalyserUpper x y ≤ 2) := by
  have main : FieldsInRange w := by
    induction h with
    | init gs o ho => exact mkWorld_fieldsInRange gs o ho
    | resetW w o hw ho ih => exact mkWorld_fieldsInRange w.gridSize o ho
    | stepW w o hw ih => exact step_fieldsInRange w o ih
  intro x y _ _
  exact main x y

/-- An all-zero initialisation oracle. -/
def zeroInit : InitOracle :=
  { tempRand := fun _ _ => 0, upperRand := fun _ _ => 0,
    coreX := fun _ => 0, coreY := fun _ => 0 }

/-- Witness for C3: the freshly constructed 1×1 world (with the zero oracle)
is reachable and its single cell satisfies all three range constraints. -/
theorem reachable_fields_in_range_witness :
    Reachable (mkWorld 1 zeroInit) ∧
    ((0 ≤ (mkWorld 1 zeroInit).temperature 0 0 ∧
        (mkWorld 1 zeroInit).temperature 0 0 ≤ 1) ∧
      0 ≤ (mkWorld 1 zeroInit).catalyserLower 0 0 ∧
      (0 ≤ (mkWorld 1 zeroInit).catalyserUpper 0 0 ∧
        (mkWorld 1 zeroInit).catalyserUpper 0 0 ≤ 2)) := by
  have hre : Reachable (mkWorld 1 zeroInit) :=
    Reachable.init 1 zeroInit (fun x y => ⟨le_refl 0, by simp [zeroInit]⟩)
  exact ⟨hre, reachable_fields_in_range (mkWorld 1 zeroInit) hre 0 0
    (by simp [mkWorld]) (by simp [mkWorld])⟩

/-! ### C2: the core state machine -/

theorem moveCore_parts (gs : ℕ) (mv : Fin 8) (c : Core) :
    (moveCore gs mv c).state = c.state ∧
    (moveCore gs mv c).consecutiveHighTemp = c.consecutiveHighTemp ∧
    (moveCore gs mv c).bloomTime = c.bloomTime ∧
    (moveCore gs mv c).id = c.id := ⟨rfl, rfl, rfl, rfl⟩

theorem afterPendingMove_parts (gs tick : ℕ) (mv : Fin 8) (c : Core) :
    (afterPendingMove gs tick mv c).state = c.state ∧
    (afterPendingMove gs tick mv c).consecutiveHighTemp =
      c.consecutiveHighTemp ∧
    (afterPendingMove gs tick mv c).bloomTime = c.bloomTime ∧
    (afterPendingMove gs tick mv c).id = c.id := by
  unfold afterPendingMove
  cases c.moveAfterTick with
  | none => exact ⟨rfl, rfl, rfl, rfl⟩
  | some m =>
    dsimp only
    split_ifs with h
    · exact ⟨rfl, rfl, rfl, rfl⟩
    · exact ⟨rfl, rfl, rfl, rfl⟩

theorem dormantCheck_xy (tick : ℕ) (cat : ℝ) (c : Core) :
    (dormantCheck tick cat c).x = c.x ∧ (dormantCheck tick cat c).y = c.y := by
  unfold dormantCheck
  split_ifs <;> exact ⟨rfl, rfl⟩

theorem dormantCheck_pos (tick : ℕ) (cat : ℝ) (c : Core)
    (hc : c.state = .dormant) (h : cat > 0.2) :
    dormantCheck tick cat c =
      { c with state := .incubated, incubationTime := tick,
               consecutiveHighTemp := 0 } := by
  unfold dormantCheck
  rw [if_pos ⟨hc, h⟩]

theorem dormantCheck_id (tick : ℕ) (cat : ℝ) (c : Core)
    (h : ¬(c.state = .dormant ∧ cat > 0.2)) :
    dormantCheck tick cat c = c := by
  unfold dormantCheck
  rw [if_neg h]

theorem incubatedBlock_skip (tick : ℕ) (t : ℝ) (st : Grid × List Energy)
    (c2 : Core) (h : ¬(c2.state = .incubated)) :
    incubatedBlock tick t st c2 = (st, c2) := by
  unfold incubatedBlock
  rw [if_neg h]

theorem incubatedBlock_bloom (tick : ℕ) (t : ℝ) (st : Grid × List Energy)
    (c2 : Core) (h : c2.state = .incubated) (ht : t > 0.2)
    (hn : c2.consecutiveHighTemp + 1 ≥ 5) :
    incubatedBlock tick t st c2 =
      ((st.1, st.2 ++ [⟨c2.x, c2.y, tick, true, c2.id⟩]),
       { c2 with state := .bloomed, bloomTime := tick,
                 consecutiveHighTemp := c2.consecutiveHighTemp + 1 }) := by
  unfold incubatedBlock
  rw [if_pos h, if_pos ht, if_pos hn]

theorem incubatedBlock_count (tick : ℕ) (t : ℝ) (st : Grid × List Energy)
    (c2 : Core) (h : c2.state = .incubated) (ht : t > 0.2)
    (hn : ¬(c2.consecutiveHighTemp + 1 ≥ 5)) :
    incubatedBlock tick t st c2 =
      (st, { c2 with consecutiveHighTemp := c2.consecutiveHighTemp + 1 }) := by
  unfold incubatedBlock
  rw [if_pos h, if_pos ht, if_neg hn]

theorem incubatedBlock_cold (tick : ℕ) (t : ℝ) (st : Grid × List Energy)
    (c2 : Core) (h : c2.state = .incubated) (ht : ¬(t > 0.2)) :
    incubatedBlock tick t st c2 =
      (st, { c2 with consecutiveHighTemp := 0 }) := by
  unfold incubatedBlock
  rw [if_pos h, if_neg ht]

theorem bloomedBlock_skip (gs tick : ℕ) (mvB : Fin 8)
    (r2 : (Grid × List Energy) × Core)
    (h : ¬(r2.2.state = .bloomed ∧ r2.2.bloomTime + 5 ≤ tick)) :
    bloomedBlock gs tick mvB r2 = r2 := by
  unfold bloomedBlock
  rw [if_neg h]

theorem bloomedBlock_fire (gs tick : ℕ) (mvB : Fin 8)
    (r2 : (Grid × List Energy) × Core)
    (h : r2.2.state = .bloomed ∧ r2.2.bloomTime + 5 ≤ tick) :
    bloomedBlock gs tick mvB r2 =
      ((setCell r2.1.1 r2.2.x r2.2.y (r2.1.1 r2.2.x r2.2.y + 0.1), r2.1.2),
       moveCore gs mvB
         { r2.2 with state := .dormant, consecutiveHighTemp := 0 }) := by
  unfold bloomedBlock
  rw [if_pos h]

theorem processCore_of_dormant (gs tick : ℕ) (temp : Grid) (mvA mvB : Fin 8)
    (st : Grid × List Energy) (c : Core) (hc : c.state = .dormant) :
    (processCore gs tick temp mvA mvB st c).2.state =
      (if st.1 (afterPendingMove gs tick mvA c).x
          (afterPendingMove gs tick mvA c).y > 0.2 then
        CoreState.incubated else CoreState.dormant) ∧
    (processCore gs tick temp mvA mvB st c).1 = st := by
  have h1 := (afterPendingMove_parts gs tick mvA c).1
  set c1 := afterPendingMove gs tick mvA c with hc1
  have hc1s : c1.state = .dormant := h1.trans hc
  unfold processCore
  dsimp only
  rw [← hc1]
  by_cases hcat : st.1 c1.x c1.y > 0.2
  · rw [dormantCheck_pos tick _ c1 hc1s hcat]
    by_cases ht : temp c1.x c1.y > 0.2
    · rw [incubatedBlock_count tick _ st _ rfl (by exact ht) (by norm_num),
        bloomedBlock_skip _ _ _ _ (by rintro ⟨h, _⟩; exact absurd h (by simp)),
        if_pos hcat]
      exact ⟨rfl, rfl⟩
    · rw [incubatedBlock_cold tick _ st _ rfl (by exact ht),
        bloomedBlock_skip _ _ _ _ (by rintro ⟨h, _⟩; exact absurd h (by simp)),
        if_pos hcat]
      exact ⟨rfl, rfl⟩
  · rw [dormantCheck_id tick _ c1 (by rintro ⟨_, h⟩; exact hcat h),
      incubatedBlock_skip tick _ st c1 (by rw [hc1s]; simp),
      bloomedBlock_skip _ _ _ _ (by rintro ⟨h, _⟩; rw [hc1s] at h; simp at h),
      if_neg hcat]
    exact ⟨hc1s, rfl⟩

theorem processCore_of_incubated (gs tick : ℕ) (temp : Grid) (mvA mvB : Fin 8)
    (st : Grid × List Energy) (c : Core) (hc : c.state = .incubated) :
    (processCore gs tick temp mvA mvB st c).2.state =
      (if temp (afterPendingMove gs tick mvA c).x
          (afterPendingMove gs tick mvA c).y > 0.2 ∧
          c.consecutiveHighTemp + 1 ≥ 5 then
        CoreState.bloomed else CoreState.incubated) ∧
    (processCore gs tick temp mvA mvB st c).2.consecutiveHighTemp =
      (if temp (afterPendingMove gs tick mvA c).x
          (afterPendingMove gs tick mvA c).y > 0.2 then
        c.consecutiveHighTemp + 1 else 0) ∧
    (processCore gs tick temp mvA mvB st c).1.1 = st.1 ∧
    (processCore gs tick temp mvA mvB st c).1.2 =
      (if temp (afterPendingMove gs tick mvA c).x
          (afterPendingMove gs tick mvA c).y > 0.2 ∧
          c.consecutiveHighTemp + 1 ≥ 5 then
        st.2 ++ [⟨(afterPendingMove gs tick mvA c).x,
                  (afterPendingMove gs tick mvA c).y, tick, true, c.id⟩]
      else st.2) := by
  obtain ⟨h1, h2, _, h4⟩ := afterPendingMove_parts gs tick mvA c
  unfold processCore
  dsimp only
  set c1 := afterPendingMove gs tick mvA c with hc1
  have hc1s : c1.state = .incubated := h1.trans hc
  rw [dormantCheck_id tick _ c1 (by rw [hc1s]; rintro ⟨h, _⟩; simp at h)]
  by_cases ht : temp c1.x c1.y > 0.2
  · by_cases hn : c1.consecutiveHighTemp + 1 ≥ 5
    · have hn' : c.consecutiveHighTemp + 1 ≥ 5 := by rw [← h2]; exact hn
      rw [incubatedBlock_bloom tick _ st c1 hc1s ht hn,
        bloomedBlock_skip _ _ _ _ (by simp)]
      simp [ht, hn', h2, h4]
    · have hn' : ¬(c.consecutiveHighTemp + 1 ≥ 5) := by rw [← h2]; exact hn
      rw [incubatedBlock_count tick _ st c1 hc1s ht hn,
        bloomedBlock_skip _ _ _ _ (by simp [hc1s])]
      simp [ht, hn', h2, hc1s]
  · rw [incubatedBlock_cold tick _ st c1 hc1s ht,
      bloomedBlock_skip _ _ _ _ (by simp [hc1s])]
    simp [ht, hc1s]

theorem processCore_of_bloomed (gs tick : ℕ) (temp : Grid) (mvA mvB : Fin 8)
    (st : Grid × List Energy) (c : Core) (hc : c.state = .bloomed) :
    (processCore gs tick temp mvA mvB st c).2.state =
      (if c.bloomTime + 5 ≤ tick then CoreState.dormant
       else CoreState.bloomed) ∧
    (processCore gs tick temp mvA mvB st c).1.2 = st.2 := by
  obtain ⟨h1, _, h3, _⟩ := afterPendingMove_parts gs tick mvA c
  unfold processCore
  dsimp only
  set c1 := afterPendingMove gs tick mvA c with hc1
  have hc1s : c1.state = .bloomed := h1.trans hc
  rw [dormantCheck_id tick _ c1 (by rw [hc1s]; rintro ⟨h, _⟩; simp at h),
    incubatedBlock_skip tick _ st c1 (by rw [hc1s]; simp)]
  by_cases hb : c1.bloomTime + 5 ≤ tick
  · have hb' : c.bloomTime + 5 ≤ tick := by rw [← h3]; exact hb
    rw [bloomedBlock_fire _ _ _ _ ⟨hc1s, hb⟩]
    simp [hb', moveCore]
  · have hb' : ¬(c.bloomTime + 5 ≤ tick) := by rw [← h3]; exact hb
    rw [bloomedBlock_skip _ _ _ _ (by rintro ⟨_, h⟩; exact hb h)]
    simp [hb', hc1s]

theorem processCore_state_cycle (gs tick : ℕ) (temp : Grid) (mvA mvB : Fin 8)
    (st : Grid × List Energy) (c : Core) :
    (processCore gs tick temp mvA mvB st c).2.state = c.state ∨
    (processCore gs tick temp mvA mvB st c).2.state = c.state.next := by
  cases hc : c.state with
  | dormant =>
    have h := (processCore_of_dormant gs tick temp mvA mvB st c hc).1
    rw [h]
    split_ifs
    · right; rfl
    · left; rfl
  | incubated =>
    have h := (processCore_of_incubated gs tick temp mvA mvB st c hc).1
    rw [h]
    split_ifs
    · right; rfl
    · left; rfl
  | bloomed =>
    have h := (processCore_of_bloomed gs tick temp mvA mvB st c hc).1
    rw [h]
    split_ifs
    · right; rfl
    · left; rfl

theorem coresPass_length (gs tick : ℕ) (temp : Grid) (mvA mvB : ℕ → Fin 8) :
    ∀ (cs : List Core) (idx : ℕ) (st : Grid × List Energy),
      (coresPass gs tick temp mvA mvB idx st cs).2.length = cs.length := by
  intro cs
  induction cs with
  | nil => intro idx st; rfl
  | cons c rest ih =>
    intro idx st
    simp [coresPass, ih]

/-- The default core used for index-with-default list access in statements. -/
def defCore : Core := ⟨0, 0, .dormant, 0, 0, 0, 0, 0, none⟩

theorem coresPass_state_cycle (gs tick : ℕ) (temp : Grid)
    (mvA mvB : ℕ → Fin 8) :
    ∀ (cs : List Core) (idx : ℕ) (st : Grid × List Energy) (i : ℕ),
      i < cs.length →
      ((coresPass gs tick temp mvA mvB idx st cs).2.getD i defCore).state =
        (cs.getD i defCore).state ∨
      ((coresPass gs tick temp mvA mvB idx st cs).2.getD i defCore).state =
        (cs.getD i defCore).state.next := by
  intro cs
  induction cs with
  | nil => intro idx st i h; simp at h
  | cons c rest ih =>
    intro idx st i h
    cases i with
    | zero =>
      simpa [coresPass] using
        processCore_state_cycle gs tick temp (mvA idx) (mvB idx) st c
    | succ j =>
      have hj : j < rest.length := by simpa using h
      simpa [coresPass] using ih (idx + 1) _ j hj

/-- C2: the core state field only ever transitions along the cycle
dormant → incubated → bloomed → dormant under `step()` (part a, for every
world — in particular every reachable one — and every core); a dormant core
becomes incubated exactly when the lower catalyser at its (possibly just
relocated) cell exceeds 0.2 (part b); an incubated core becomes bloomed
exactly when its consecutive high-temperature counter — incremented on each
qualifying `updateCores` pass with local temperature above 0.2 and reset to 0
otherwise — reaches 5, at which point exactly one energy manifestation is
created at the core's cell (part c); and a bloomed core returns to dormant
exactly when the world tick has advanced 5 past its recorded `bloomTime`
(part d).  No transition skips a state or reverses. -/
theorem core_state_machine :
    (∀ (w : World) (o : StepOracle),
      (step w o).cores.length = w.cores.length ∧
      ∀ i, i < w.cores.length →
        ((step w o).cores.getD i defCore).state =
          (w.cores.getD i defCore).state ∨
        ((step w o).cores.getD i defCore).state =
          (w.cores.getD i defCore).state.next) ∧
    (∀ (gs tick : ℕ) (temp : Grid) (mvA mvB : Fin 8)
        (st : Grid × List Energy) (c : Core), c.state = .dormant →
      ((processCore gs tick temp mvA mvB st c).2.state = .incubated ↔
        st.1 (afterPendingMove gs tick mvA c).x
          (afterPendingMove gs tick mvA c).y > 0.2) ∧
      (processCore gs tick temp mvA mvB st c).1 = st) ∧
    (∀ (gs tick : ℕ) (temp : Grid) (mvA mvB : Fin 8)
        (st : Grid × List Energy) (c : Core), c.state = .incubated →
      ((processCore gs tick temp mvA mvB st c).2.state = .bloomed ↔
        temp (afterPendingMove gs tick mvA c).x
          (afterPendingMove gs tick mvA c).y > 0.2 ∧
        c.consecutiveHighTemp + 1 ≥ 5) ∧
      ((processCore gs tick temp mvA mvB st c).2.state = .bloomed →
        (processCore gs tick temp mvA mvB st c).1.2 =
          st.2 ++ [⟨(afterPendingMove gs tick mvA c).x,
                    (afterPendingMove gs tick mvA c).y, tick, true, c.id⟩]) ∧
      (temp (afterPendingMove gs tick mvA c).x
          (afterPendingMove gs tick mvA c).y > 0.2 →
        (processCore gs tick temp mvA mvB st c).2.consecutiveHighTemp =
          c.consecutiveHighTemp + 1) ∧
      (¬ temp (afterPendingMove gs tick mvA c).x
          (afterPendingMove gs tick mvA c).y > 0.2 →
        (processCore gs tick temp mvA mvB st c).2.consecutiveHighTemp = 0 ∧
        (processCore gs tick temp mvA mvB st c).2.state = .incubated ∧
        (processCore gs tick temp mvA mvB st c).1.2 = st.2)) ∧
    (∀ (gs tick : ℕ) (temp : Grid) (mvA mvB : Fin 8)
        (st : Grid × List Energy) (c : Core), c.state = .bloomed →
      ((processCore gs tick temp mvA mvB st c).2.state = .dormant ↔
        c.bloomTime + 5 ≤ tick) ∧
      ((processCore gs tick temp mvA mvB st c).2.state = .bloomed ↔
        ¬(c.bloomTime + 5 ≤ tick)) ∧
      (processCore gs tick temp mvA mvB st c).1.2 = st.2) := by
  refine ⟨?_, ?_, ?_, ?_⟩
  · intro w o
    have hcores : ∀ (w2 : World), w2.cores = w.cores →
        (updateCores w2 o).cores.length = w.cores.length ∧
        ∀ i, i < w.cores.length →
          ((updateCores w2 o).cores.getD i defCore).state =
            (w.cores.getD i defCore).state ∨
          ((updateCores w2 o).cores.getD i defCore).state =
            (w.cores.getD i defCore).state.next := by
      intro w2 hw2
      constructor
      · show (coresPass _ _ _ _ _ _ _ _).2.length = _
        rw [coresPass_length, hw2]
      · intro i h
        have h2 : i < w2.cores.length := by rw [hw2]; exact h
        have hcp := coresPass_state_cycle w2.gridSize w2.tick w2.temperature
          o.moveA o.moveB w2.cores 0 (w2.catalyserLower, w2.energies) i h2
        rw [hw2] at hcp
        show ((coresPass w2.gridSize w2.tick w2.temperature o.moveA o.moveB 0
            (w2.catalyserLower, w2.energies) w2.cores).2.getD i
              defCore).state = _ ∨
          ((coresPass w2.gridSize w2.tick w2.temperature o.moveA o.moveB 0
            (w2.catalyserLower, w2.energies) w2.cores).2.getD i
              defCore).state = _
        rw [hw2]
        exact hcp
    unfold step
    cases w.phase
    · exact hcores _ rfl
    · exact hcores _ rfl
  · intro gs tick temp mvA mvB st c hc
    obtain ⟨h1, h2⟩ := processCore_of_dormant gs tick temp mvA mvB st c hc
    refine ⟨?_, h2⟩
    rw [h1]
    split_ifs with h
    · exact iff_of_true rfl h
    · exact iff_of_false (by simp) h
  · intro gs tick temp mvA mvB st c hc
    obtain ⟨h1, h2, _, h4⟩ := processCore_of_incubated gs tick temp mvA mvB
      st c hc
    refine ⟨?_, ?_, ?_, ?_⟩
    · rw [h1]
      split_ifs with h
      · exact iff_of_true rfl h
      · exact iff_of_false (by simp) h
    · intro hb
      rw [h1] at hb
      rw [h4]
      split_ifs with h
      · rfl
      · rw [if_neg h] at hb; exact absurd hb (by simp)
    · intro ht
      rw [h2, if_pos ht]
    · intro ht
      refine ⟨by rw [h2, if_neg ht], ?_, ?_⟩
      · rw [h1, if_neg (by rintro ⟨h, _⟩; exact ht h)]
      · rw [h4, if_neg (by rintro ⟨h, _⟩; exact ht h)]
  · intro gs tick temp mvA mvB st c hc
    obtain ⟨h1, h2⟩ := processCore_of_bloomed gs tick temp mvA mvB st c hc
    refine ⟨?_, ?_, h2⟩
    · rw [h1]
      split_ifs with h
      · exact iff_of_true rfl h
      · exact iff_of_false (by simp) h
    · rw [h1]
      split_ifs with h
      · exact iff_of_false (by simp) (not_not_intro h)
      · exact iff_of_true rfl h

/-- Witness for C2 at concrete inputs: a dormant core on a high-catalyser
cell incubates; an incubated core with counter 4 on a hot cell blooms and
deposits exactly one energy manifestation at its cell; a bloomed core whose
`bloomTime` is 5 ticks old returns to dormant; stepping a world with no cores
preserves the (empty) core roster. -/
theorem core_state_machine_witness :
    ((Core.mk 0 0 .dormant 0 0 0 0 0 none).state = .dormant ∧
      (processCore 1 0 (fun _ _ => 0) 0 0 (fun _ _ => 1, [])
        (Core.mk 0 0 .dormant 0 0 0 0 0 none)).2.state = .incubated) ∧
    ((Core.mk 0 0 .incubated 0 0 0 4 7 none).state = .incubated ∧
      (processCore 1 0 (fun _ _ => 1) 0 0 (fun _ _ => 0, [])
        (Core.mk 0 0 .incubated 0 0 0 4 7 none)).2.state = .bloomed ∧
      (processCore 1 0 (fun _ _ => 1) 0 0 (fun _ _ => 0, [])
        (Core.mk 0 0 .incubated 0 0 0 4 7 none)).1.2 =
        [⟨0, 0, 0, true, 7⟩]) ∧
    ((Core.mk 0 0 .bloomed 0 0 0 5 3 none).state = .bloomed ∧
      (processCore 1 5 (fun _ _ => 0) 0 0 (fun _ _ => 0, [])
        (Core.mk 0 0 .bloomed 0 0 0 5 3 none)).2.state = .dormant) ∧
    (tinyWorld.cores.length = 0 ∧
      (step tinyWorld ⟨fun _ _ => 0, fun _ => 0, fun _ => 0⟩).cores.length =
        0) := by
  obtain ⟨ha, hb, hc, hd⟩ := core_state_machine
  refine ⟨⟨rfl, ?_⟩, ⟨rfl, ?_, ?_⟩, ⟨rfl, ?_⟩, rfl, ?_⟩
  · exact (hb 1 0 (fun _ _ => 0) 0 0 (fun _ _ => 1, [])
      (Core.mk 0 0 .dormant 0 0 0 0 0 none) rfl).1.mpr (by norm_num)
  · exact (hc 1 0 (fun _ _ => 1) 0 0 (fun _ _ => 0, [])
      (Core.mk 0 0 .incubated 0 0 0 4 7 none) rfl).1.mpr
      ⟨by norm_num, by norm_num⟩
  · have h := (hc 1 0 (fun _ _ => 1) 0 0 (fun _ _ => 0, [])
      (Core.mk 0 0 .incubated 0 0 0 4 7 none) rfl).2.1
      ((hc 1 0 (fun _ _ => 1) 0 0 (fun _ _ => 0, [])
        (Core.mk 0 0 .incubated 0 0 0 4 7 none) rfl).1.mpr
        ⟨by norm_num, by norm_num⟩)
    simpa [afterPendingMove] using h
  · exact (hd 1 5 (fun _ _ => 0) 0 0 (fun _ _ => 0, [])
      (Core.mk 0 0 .bloomed 0 0 0 5 3 none) rfl).1.mpr (by norm_num)
  · have h := (ha tinyWorld ⟨fun _ _ => 0, fun _ => 0, fun _ => 0⟩).1
    simpa [tinyWorld] using h

end WorldPhysics

/-! ## The neural policy (`src/neural/NeuralNetwork.js`) -/

namespace NeuralNetwork

/-- One layer: a weight matrix (rows × inputs) and a bias vector. -/
structure Layer where
  weights : List (List ℝ)
  biases : List ℝ

/-- A feedforward network: the ordered list of layers. -/
structure Net where
  layers : List Layer

/-- The stream of Box–Muller Gaussian draws consumed by the constructor
(`gaussianRandom()`), indexed by layer, row and column (the bias stream by
layer and row).  The source's spare-value cache is an implementation detail
of the draw sequence, not of the produced values. -/
structure GaussOracle where
  wGauss : ℕ → ℕ → ℕ → ℝ
  bGauss : ℕ → ℕ → ℝ

/-- `randomMatrix(rows, cols, std)`. -/
def randomMatrix (o : GaussOracle) (li rows cols : ℕ) (std : ℝ) :
    List (List ℝ) :=
  (List.range rows).map (fun r =>
    (List.range cols).map (fun cc => o.wGauss li r cc * std))

/-- `randomArray(size, std)`. -/
def randomArray (o : GaussOracle) (li size : ℕ) (std : ℝ) : List ℝ :=
  (List.range size).map (fun r => o.bGauss li r * std)

/-- The `NeuralNetwork` constructor: for sizes
`[inputSize, ...hiddenSizes, outputSize]`, layer `i` has
`sizes[i+1] × sizes[i]` Gaussian weights and `sizes[i+1]` Gaussian biases,
scaled by 0.1. -/
def mkNetwork (inputSize : ℕ) (hiddenSizes : List ℕ) (outputSize : ℕ)
    (o : GaussOracle) : Net :=
  let sizes := inputSize :: (hiddenSizes ++ [outputSize])
  { layers := (List.range (sizes.length - 1)).map (fun i =>
      { weights := randomMatrix o i (sizes.getD (i + 1) 0) (sizes.getD i 0)
          0.1,
        biases := randomArray o i (sizes.getD (i + 1) 0) 0.1 }) }

/-- The inner product loop `for k: sum += weights[j][k] * activation[k]`. -/
def dot (row x : List ℝ) : ℝ := (List.zipWith (· * ·) row x).sum

/-- One layer's affine map `W·x + b` (row `j` paired with bias `j`). -/
def linearLayer (l : Layer) (x : List ℝ) : List ℝ :=
  List.zipWith (fun row b => b + dot row x) l.weights l.biases

/-- ReLU applied componentwise (`Math.max(0, sum)`). -/
def reluVec (v : List ℝ) : List ℝ := v.map (fun a => max 0 a)

/-- `Math.max(...arr)` on a nonempty list. -/
def listMax (l : List ℝ) : ℝ := l.foldl max (l.headD 0)

/-- `softmax(arr)`: subtract the maximum, exponentiate, normalise. -/
def softmax (l : List ℝ) : List ℝ :=
  let exps := l.map (fun a => Real.exp (a - listMax l))
  exps.map (fun e => e / exps.sum)

/-- The layer loop of `forward`: ReLU on hidden layers, the final layer left
linear. -/
def forwardAux : List Layer → List ℝ → List ℝ
  | [], x => x
  | [l], x => linearLayer l x
  | l :: l2 :: rest, x => forwardAux (l2 :: rest) (reluVec (linearLayer l x))

/-- `forward(input)`: run the layers, then apply softmax for the action
probabilities. -/
def forward (n : Net) (x : List ℝ) : List ℝ := softmax (forwardAux n.layers x)

/-- The nudged output-layer weight row of `applyREINFORCE`
(`weights[actionIndex][i] += learningRate * reward * input[i]`). -/
def nudgeRow (row input : List ℝ) (lr reward : ℝ) : List ℝ :=
  row.enum.map (fun p => p.2 + lr * reward * input.getD p.1 0)

/-- `applyREINFORCE(input, actionIndex, reward, learningRate)`: no-op for a
negligible reward, otherwise nudge the acted-upon output unit's weight row
and bias. -/
def applyREINFORCE (n : Net) (input : List ℝ) (actionIndex : ℕ)
    (reward lr : ℝ) : Net :=
  if |reward| < 0.01 then n
  else
    match n.layers.getLast? with
    | none => n
    | some outl =>
      { layers := n.layers.dropLast ++
          [{ weights := outl.weights.set actionIndex
               (nudgeRow (outl.weights.getD actionIndex []) input lr reward),
             biases := outl.biases.set actionIndex
               (outl.biases.getD actionIndex 0 + lr * reward) }] }

/-- The per-parameter mutation coins and Gaussian draws of `mutate`. -/
structure MutOracle where
  wCoin : ℕ → ℕ → ℕ → ℝ
  wNoise : ℕ → ℕ → ℕ → ℝ
  bCoin : ℕ → ℕ → ℝ
  bNoise : ℕ → ℕ → ℝ

/-- `mutate(mutationRate, mutationStrength)`: every individual weight and
bias independently receives Gaussian noise with probability `rate`;
unmodified parameters are copied exactly. -/
def mutate (n : Net) (rate strength : ℝ) (o : MutOracle) : Net :=
  { layers := n.layers.enum.map (fun li =>
      { weights := li.2.weights.enum.map (fun ri =>
          ri.2.enum.map (fun wi =>
            if o.wCoin li.1 ri.1 wi.1 < rate then
              wi.2 + o.wNoise li.1 ri.1 wi.1 * strength
            else wi.2)),
        biases := li.2.biases.enum.map (fun bi =>
          if o.bCoin li.1 bi.1 < rate then
            bi.2 + o.bNoise li.1 bi.1 * strength
          else bi.2) }) }

/-- `clone()`: an exact deep copy. -/
def clone (n : Net) : Net :=
  { layers := n.layers.map (fun l =>
      { weights := l.weights.map (fun row => row.map id),
        biases := l.biases.map id }) }

/-- One entry of `getArchitecture().structure`.  The JS `inputs` field reads
`layer.weights[0].length` (a crash on an empty weight matrix); the model uses
the head with default `[]`, and the theorems restrict to layers with
nonempty weights. -/
structure LayerInfo where
  neurons : ℕ
  inputs : ℕ
  weightCount : ℕ
  biasCount : ℕ
  parameters : ℕ
deriving DecidableEq

/-- `getArchitecture()`'s result (`structure` is a Lean keyword, hence
`structureList`). -/
structure Architecture where
  layerCount : ℕ
  structureList : List LayerInfo
  totalParameters : ℕ
deriving DecidableEq

def layerInfo (l : Layer) : LayerInfo :=
  { neurons := l.weights.length,
    inputs := (l.weights.headD []).length,
    weightCount := l.weights.length * (l.weights.headD []).length,
    biasCount := l.biases.length,
    parameters := l.weights.length * (l.weights.headD []).length +
      l.biases.length }

def getArchitecture (n : Net) : Architecture :=
  { layerCount := n.layers.length,
    structureList := n.layers.map layerInfo,
    totalParameters := (n.layers.map (fun l => (layerInfo l).parameters)).sum }

/-- The serialised form: `layers` and `architecture` are optional to model
the JS falsiness check on missing fields. -/
structure SerializedNet where
  layers : Option (List Layer)
  architecture : Option Architecture
  version : String
  serializedAt : ℕ

/-- `serialize()`. -/
def serialize (n : Net) (now : ℕ) : SerializedNet :=
  { layers := some n.layers, architecture := some (getArchitecture n),
    version := "1.0", serializedAt := now }

/-- The per-layer value copy done by `deserialize`
(`layerData.weights.map(row => [...row])`). -/
def copyLayer (l : Layer) : Layer :=
  { weights := l.weights.map (fun row => row.map id),
    biases := l.biases.map id }

/-- `NeuralNetwork.deserialize(data)`: throw on a missing `layers` or
`architecture` field; otherwise rebuild a network from the architecture
record and overwrite layer `index` with `data.layers[index]` whenever
`index < network.layers.length` (extra serialized layers are ignored and
missing ones keep their fresh random values).  An empty architecture
structure is the JS crash on `structure[0].inputs`. -/
def deserialize (o : GaussOracle) (data : SerializedNet) : Except String Net :=
  match data.layers, data.architecture with
  | some ls, some arch =>
    match arch.structureList with
    | [] => Except.error "TypeError: cannot read properties of undefined"
    | s0 :: _ =>
      let inputSize := s0.inputs
      let hiddenSizes := arch.structureList.dropLast.map (fun s => s.neurons)
      let outputSize := (arch.structureList.getLast?.getD s0).neurons
      let net := mkNetwork inputSize hiddenSizes outputSize o
      Except.ok { layers := net.layers.enum.map (fun p =>
          if p.1 < ls.length then copyLayer (ls.getD p.1 ⟨[], []⟩)
          else p.2) }
  | _, _ => Except.error "Invalid serialized network data"

/-! ### C4 and C5: serialization -/

theorem copyLayer_eq (l : Layer) : copyLayer l = l := by
  cases l with
  | mk w b => simp [copyLayer, List.map_id]

theorem mkNetwork_length (inS outS : ℕ) (hs : List ℕ) (o : GaussOracle) :
    (mkNetwork inS hs outS o).layers.length = hs.length + 1 := by
  simp [mkNetwork]

theorem enum_map_overwrite {α : Type} (l l' : List α) (d : α)
    (h : l.length ≤ l'.length) :
    l.enum.map (fun p => if p.1 < l'.length then l'.getD p.1 d else p.2) =
      l'.take l.length := by
  apply List.ext_getElem
  · simp [min_eq_left h]
  · intro i h1 h2
    have hi : i < l.length := by simpa using h1
    have hi' : i < l'.length := lt_of_lt_of_le hi h
    simp [List.getElem_enum, if_pos hi', List.getElem?_eq_getElem hi']

theorem overwrite_all {α : Type} (l l' : List α) (d : α)
    (h : l.length = l'.length) :
    l.enum.map (fun p => if p.1 < l'.length then l'.getD p.1 d else p.2) =
      l' := by
  rw [enum_map_overwrite l l' d h.le, h, List.take_length]

/-- C5: `deserialize(serialize(p))` reproduces the policy exactly — same
layer shapes and same weight and bias values (the reconstructed network is
equal to `p` as a value), for every policy whose layer list is nonempty with
nonempty weight matrices (the domain on which the JS `getArchitecture` is
crash-free) and every injected randomness of the rebuild constructor. -/
theorem serialize_roundtrip (n : Net) (now : ℕ) (o : GaussOracle)
    (h : n.layers ≠ []) (_hw : ∀ l ∈ n.layers, l.weights ≠ []) :
    deserialize o (serialize n now) = Except.ok n := by
  obtain ⟨l0, rest, hl⟩ := List.exists_cons_of_ne_nil h
  unfold serialize deserialize getArchitecture
  simp only [hl, List.map_cons]
  simp only [copyLayer_eq]
  rw [overwrite_all _ _ _ (by
    rw [mkNetwork_length]
    simp)]
  rw [← hl]

/-- The corrected description of `deserialize`'s validation (C4): only the
presence of the `layers` and `architecture` fields is checked (missing
fields raise the descriptive `Invalid serialized network data` error); shape
compatibility of the layer data with the architecture record is NOT
validated — serialized layers beyond the architecture's layer count are
silently dropped. -/
theorem deserialize_validation :
    (∀ (o : GaussOracle) (arch : Option Architecture) (v : String) (t : ℕ),
      deserialize o ⟨none, arch, v, t⟩ =
        Except.error "Invalid serialized network data") ∧
    (∀ (o : GaussOracle) (ls : List Layer) (v : String) (t : ℕ),
      deserialize o ⟨some ls, none, v, t⟩ =
        Except.error "Invalid serialized network data") ∧
    (∀ (n : Net) (extra : List Layer) (now : ℕ) (o : GaussOracle),
      n.layers ≠ [] →
      deserialize o
          { serialize n now with layers := some (n.layers ++ extra) } =
        Except.ok n) := by
  refine ⟨fun o arch v t => rfl, fun o ls v t => rfl, ?_⟩
  intro n extra now o h
  obtain ⟨l0, rest, hl⟩ := List.exists_cons_of_ne_nil h
  unfold serialize deserialize getArchitecture
  simp only [hl, List.map_cons, List.cons_append]
  simp only [copyLayer_eq, ← List.cons_append]
  rw [enum_map_overwrite _ _ _ (by
    rw [mkNetwork_length]
    simp)]
  rw [show ((mkNetwork (layerInfo l0).inputs
      (((layerInfo l0 :: rest.map layerInfo).dropLast).map
        (fun s => s.neurons))
      ((layerInfo l0 :: rest.map layerInfo).getLast?.getD
        (layerInfo l0)).neurons o).layers.length) = (l0 :: rest).length by
    rw [mkNetwork_length]
    simp]
  rw [List.take_left, ← hl]

/-- A one-layer 1→1 network with zero parameters. -/
def oneLayerNet : Net := ⟨[⟨[[0]], [0]⟩]⟩

/-- `serialize oneLayerNet` with one extra layer smuggled into `layers` while
the architecture still records a single layer. -/
def mismatchedData : SerializedNet :=
  { serialize oneLayerNet 0 with
    layers := some (oneLayerNet.layers ++ [⟨[[0]], [0]⟩]) }

/-- Counterexample to C4 as stated: `mismatchedData` declares 2 serialized
layers against an architecture of 1 layer — a shape mismatch — yet
`deserialize` raises no error and silently drops the extra layer. -/
theorem deserialize_no_shape_validation_cx :
    (mismatchedData.layers.getD []).length = 2 ∧
    (mismatchedData.architecture.getD
      (getArchitecture oneLayerNet)).layerCount = 1 ∧
    deserialize ⟨fun _ _ _ => 0, fun _ _ => 0⟩ mismatchedData =
      Except.ok oneLayerNet := by
  refine ⟨rfl, rfl, ?_⟩
  rfl

/-- Witness for the corrected C4 theorem: a missing `layers` field errors
descriptively, and the concrete mismatched payload round-trips to the
truncated one-layer net. -/
theorem deserialize_validation_witness :
    deserialize ⟨fun _ _ _ => 0, fun _ _ => 0⟩
        ⟨none, none, "1.0", 0⟩ =
      Except.error "Invalid serialized network data" ∧
    oneLayerNet.layers ≠ [] ∧
    deserialize ⟨fun _ _ _ => 0, fun _ _ => 0⟩
        { serialize oneLayerNet 0 with
          layers := some (oneLayerNet.layers ++ [⟨[[0]], [0]⟩]) } =
      Except.ok oneLayerNet := by
  obtain ⟨h1, _, h3⟩ := deserialize_validation
  exact ⟨h1 _ none "1.0" 0, by simp [oneLayerNet],
    h3 oneLayerNet [⟨[[0]], [0]⟩] 0 _ (by simp [oneLayerNet])⟩

/-- Witness for C5 on `oneLayerNet`. -/
theorem serialize_roundtrip_witness :
    oneLayerNet.layers ≠ [] ∧
    (∀ l ∈ oneLayerNet.layers, l.weights ≠ []) ∧
    deserialize ⟨fun _ _ _ => 0, fun _ _ => 0⟩ (serialize oneLayerNet 42) =
      Except.ok oneLayerNet := by
  refine ⟨by simp [oneLayerNet], ?_, ?_⟩
  · intro l hl
    simp [oneLayerNet] at hl
    simp [hl]
  · exact serialize_roundtrip oneLayerNet 42 _ (by simp [oneLayerNet])
      (by intro l hl; simp [oneLayerNet] at hl; simp [hl])

/-! ### C6: the forward pass -/

/-- The network has the layer shapes of the architecture
`sizes = [in, h1, ..., out]`. -/
def hasShape (n : Net) (sizes : List ℕ) : Prop :=
  n.layers.length + 1 = sizes.length ∧
  ∀ i, i < n.layers.length →
    (n.layers.getD i ⟨[], []⟩).weights.length = sizes.getD (i + 1) 0 ∧
    (n.layers.getD i ⟨[], []⟩).biases.length = sizes.getD (i + 1) 0 ∧
    ∀ row ∈ (n.layers.getD i ⟨[], []⟩).weights,
      row.length = sizes.getD i 0

theorem sum_map_div (l : List ℝ) (c : ℝ) :
    (l.map (fun x => x / c)).sum = l.sum / c := by
  induction l with
  | nil => simp
  | cons a t ih => simp [ih, add_div]

theorem softmax_length (l : List ℝ) : (softmax l).length = l.length := by
  simp [softmax]

theorem softmax_sum (l : List ℝ) (h : l ≠ []) : (softmax l).sum = 1 := by
  unfold softmax
  dsimp only
  rw [sum_map_div]
  apply div_self
  have hpos : 0 < (l.map (fun a => Real.exp (a - listMax l))).sum := by
    apply List.sum_pos
    · intro x hx
      rcases List.mem_map.mp hx with ⟨a, _, rfl⟩
      exact Real.exp_pos _
    · simpa using h
  exact ne_of_gt hpos

theorem forwardAux_last_length :
    ∀ (ls : List Layer) (l : Layer) (x : List ℝ),
      (forwardAux (ls ++ [l]) x).length =
        min l.weights.length l.biases.length
  | [], l, x => by simp [forwardAux, linearLayer]
  | [a], l, x => by simp [forwardAux, linearLayer]
  | a :: b :: t, l, x => by
    simp only [List.cons_append, forwardAux]
    exact forwardAux_last_length (b :: t) l _

/-- C6: for a network with the standard 542→256→128→64→5 architecture and a
542-entry input, `forward` returns a vector of length 5 whose entries sum to
exactly 1 in real arithmetic (hence within the claimed `±1e-6`); the output
is the subtract-the-max softmax of the final linear layer by definition of
`forward`. -/
theorem forward_probability_vector (n : Net) (x : List ℝ)
    (hshape : hasShape n [542, 256, 128, 64, 5]) (_hx : x.length = 542) :
    (forward n x).length = 5 ∧ (forward n x).sum = 1 ∧
    |(forward n x).sum - 1| ≤ 1 / 1000000 := by
  have hlen : n.layers.length = 4 := by
    have := hshape.1
    simpa using this
  obtain ⟨ls, a, hsplit⟩ : ∃ ls a, n.layers = ls ++ [a] := by
    rcases List.eq_nil_or_concat n.layers with h0 | ⟨ls, a, hc⟩
    · rw [h0] at hlen; simp at hlen
    · exact ⟨ls, a, by simpa [List.concat_eq_append] using hc⟩
  have hlsl : ls.length = 3 := by
    rw [hsplit] at hlen
    simp at hlen
    omega
  have hshape3 := hshape.2 3 (by omega)
  have hga : n.layers.getD 3 ⟨[], []⟩ = a := by
    rw [hsplit, ← hlsl]
    exact WorldPhysics.getD_middle ls [] a _
  have hwa : a.weights.length = 5 := by
    rw [hga] at hshape3
    simpa using hshape3.1
  have hba : a.biases.length = 5 := by
    rw [hga] at hshape3
    simpa using hshape3.2.1
  have hlength : (forwardAux n.layers x).length = 5 := by
    rw [hsplit, forwardAux_last_length, hwa, hba]
    simp
  have hne : forwardAux n.layers x ≠ [] := by
    intro hnil
    rw [hnil] at hlength
    simp at hlength
  refine ⟨?_, softmax_sum _ hne, ?_⟩
  · rw [forward, softmax_length, hlength]
  · rw [forward, softmax_sum _ hne]
    norm_num

/-- An all-zero network with the standard architecture. -/
def stdZeroNet : Net :=
  ⟨[⟨List.replicate 256 (List.replicate 542 0), List.replicate 256 0⟩,
    ⟨List.replicate 128 (List.replicate 256 0), List.replicate 128 0⟩,
    ⟨List.replicate 64 (List.replicate 128 0), List.replicate 64 0⟩,
    ⟨List.replicate 5 (List.replicate 64 0), List.replicate 5 0⟩]⟩

theorem stdZeroNet_shape : hasShape stdZeroNet [542, 256, 128, 64, 5] := by
  refine ⟨rfl, ?_⟩
  intro i hi
  have hi4 : i < 4 := by simpa using hi
  interval_cases i <;>
    exact ⟨List.length_replicate _ _, List.length_replicate _ _,
      fun row hrow => by
        rw [List.eq_of_mem_replicate hrow]
        exact List.length_replicate _ _⟩

/-- Witness for C6 on the all-zero standard-architecture network and the
zero input vector. -/
theorem forward_probability_vector_witness :
    hasShape stdZeroNet [542, 256, 128, 64, 5] ∧
    (List.replicate 542 (0 : ℝ)).length = 542 ∧
    (forward stdZeroNet (List.replicate 542 0)).length = 5 ∧
    (forward stdZeroNet (List.replicate 542 0)).sum = 1 := by
  have h := forward_probability_vector stdZeroNet (List.replicate 542 0)
    stdZeroNet_shape (List.length_replicate _ _)
  exact ⟨stdZeroNet_shape, List.length_replicate _ _, h.1, h.2.1⟩

end NeuralNetwork

/-! ## The conscious entity (`src/evolution/ConsciousEntity.js`) -/

namespace ConsciousEntity

open NeuralNetwork WorldPhysics

/-- Action names (`['up', 'down', 'left', 'right', 'stay']`; `'unknown'` is
the constructor default, and the JS undefined for an out-of-range index). -/
inductive ActName where
  | up
  | down
  | leftA
  | rightA
  | stay
  | unknown
deriving DecidableEq

/-- Outcome tags (`'energy_gained' | 'energy_lost' | 'moved' | 'none'`). -/
inductive OutcomeTag where
  | energyGained
  | energyLost
  | moved
  | noTag
deriving DecidableEq

/-- One memory entry (`addMemory`). -/
structure MemoryEntry where
  tick : ℕ
  x : ℕ
  y : ℕ
  field1 : ℝ
  field2 : ℝ
  field3 : ℝ
  field4 : ℝ
  field5 : ℝ
  confidence : ℝ
  energy : ℝ
  action : ActName
  outcome : OutcomeTag
  age : ℕ

/-- The default memory entry used for index-with-default access. -/
def defMemory : MemoryEntry :=
  ⟨0, 0, 0, 0, 0, 0, 0, 0, 0, 0, .unknown, .noTag, 0⟩

/-- One entry of `recentOutcomes`. -/
structure OutcomeRec where
  action : ℕ
  reward : ℝ
  tick : ℕ

/-- One vision point produced by `updateVision`. -/
structure VisionPoint where
  relativeX : ℤ
  relativeY : ℤ
  distance : ℕ
  field1 : ℝ
  field2 : ℝ
  field3 : ℝ
  field4 : ℝ
  field5 : ℝ
  confidence : ℝ

/-- The full `ConsciousEntity` state. -/
structure Entity where
  x : ℕ
  y : ℕ
  gridSize : ℕ
  energy : ℝ
  age : ℕ
  totalEnergyGained : ℝ
  fitness : ℝ
  brain : Net
  vision : List VisionPoint
  memory : List MemoryEntry
  memoryCapacity : ℕ
  recentOutcomes : List OutcomeRec
  lastTotalEnergy : ℝ
  lastAction : ActName
  lastActionIndex : ℕ
  id : ℕ

/-- The fixed input size `81 * 5 + 81 + 6 + 50`. -/
def inputSizeJS : ℕ := 81 * 5 + 81 + 6 + 50

/-- The randomness consumed by constructing one entity: the two
`Math.floor(Math.random() * gridSize)` position draws, the Gaussian stream
of the fresh brain, the mutation draws of `reproduce`, and the random id. -/
structure BirthOracle where
  posX : ℕ
  posY : ℕ
  gauss : GaussOracle
  mutO : MutOracle
  id : ℕ

/-- The `ConsciousEntity` constructor
(`new ConsciousEntity(x, y, brain, gridSize)`): `null` arguments become
random position / fresh random brain; energy 100, age 0, empty memory,
`lastAction = 'unknown'`, `lastActionIndex = 4`. -/
def mkEntity (x? y? : Option ℕ) (brain? : Option Net) (gridSize : ℕ)
    (bo : BirthOracle) : Entity :=
  { x := x?.getD bo.posX, y := y?.getD bo.posY, gridSize := gridSize,
    energy := 100, age := 0, totalEnergyGained := 0, fitness := 0,
    brain := brain?.getD (mkNetwork inputSizeJS [256, 128, 64] 5 bo.gauss),
    vision := [], memory := [], memoryCapacity := 50,
    recentOutcomes := [], lastTotalEnergy := 0,
    lastAction := .unknown, lastActionIndex := 4, id := bo.id }

/-- `calculateLifeForce(x, y, otherEntities)`: 0 out of bounds or with no
living neighbours; otherwise a count term capped at 0.8 plus an
energy/proximity-weighted term plus sinusoidal jitter, clamped to `[0,1]`.
`Date.now()` is the injected `now`. -/
def calculateLifeForce (e : Entity) (x y : ℤ) (others : List Entity)
    (now : ℕ) : ℝ :=
  if x < 0 ∨ (e.gridSize : ℤ) ≤ x ∨ y < 0 ∨ (e.gridSize : ℤ) ≤ y then 0
  else
    let nearby := others.filter (fun o =>
      o.energy > 0 ∧ ¬(o.x = e.x ∧ o.y = e.y) ∧
      ((o.x : ℤ) - x).natAbs + ((o.y : ℤ) - y).natAbs ≤ 2)
    if nearby.isEmpty then 0
    else
      let base := min (0.8 : ℝ) (0.2 * (nearby.length : ℝ))
      let influence := (nearby.map (fun o =>
        (o.energy / 100.0) *
          (1.0 / (1 + ((((o.x : ℤ) - x).natAbs +
            ((o.y : ℤ) - y).natAbs : ℕ) : ℝ) * 0.5)))).sum
      max 0 (min 1 (base + influence * 0.2 +
        Real.sin (((x : ℝ) * (y : ℝ) + (now : ℝ) * 0.001) * 0.1) * 0.05))

/-- The 9×9 window offsets of `updateVision`, `dx` outer / `dy` inner. -/
def visionOffsets : List (ℤ × ℤ) :=
  (List.range 9).flatMap (fun i =>
    (List.range 9).map (fun j => ((i : ℤ) - 4, (j : ℤ) - 4)))

/-- The randomness consumed by one `Agent.update`: the five sensory noise
draws of each of the 81 vision queries, the uniform action-sampling draw,
and the `Date.now()` wall clock. -/
structure EntityOracle where
  queryNoise : ℕ → Fin 5 → ℝ
  decideRand : ℝ
  now : ℕ

/-- `updateVision(world, otherEntities)`: query
`getRawPhysicalProperties` over the 9×9 window (Manhattan distance of the
offset) and overwrite `field5` with the life-force value. -/
def updateVision (e : Entity) (w : World) (others : List Entity)
    (o : EntityOracle) : Entity :=
  { e with vision := visionOffsets.enum.map (fun p =>
      let dx := p.2.1
      let dy := p.2.2
      let qx := (e.x : ℤ) + dx
      let qy := (e.y : ℤ) + dy
      let dist := dx.natAbs + dy.natAbs
      let props := getRawPhysicalProperties w qx qy dist e.energy
        (o.queryNoise p.1)
      { relativeX := dx, relativeY := dy, distance := dist,
        field1 := props.field1, field2 := props.field2,
        field3 := props.field3, field4 := props.field4,
        field5 := calculateLifeForce e qx qy others o.now,
        confidence := props.confidence }) }

/-- The observation object passed to `addMemory` by `update`. -/
structure Observation where
  field1 : ℝ
  field2 : ℝ
  field3 : ℝ
  field4 : ℝ
  field5 : ℝ
  confidence : ℝ
  action : ActName
  outcome : OutcomeTag

/-- `addMemory(observation, tick)`: append the entry and FIFO-evict past the
capacity. -/
def addMemory (e : Entity) (obs : Observation) (tick : ℕ) : Entity :=
  let m : MemoryEntry :=
    { tick := tick, x := e.x, y := e.y, field1 := obs.field1,
      field2 := obs.field2, field3 := obs.field3, field4 := obs.field4,
      field5 := obs.field5, confidence := obs.confidence,
      energy := e.energy, action := obs.action, outcome := obs.outcome,
      age := e.age }
  let mem := e.memory ++ [m]
  { e with memory := if mem.length > e.memoryCapacity then mem.tail else mem }

/-- The 10-value encoding of one remembered experience in
`getMemorySummary`. -/
def encodeMemory (e : Entity) (now : ℕ) (m : MemoryEntry) : List ℝ :=
  [((now : ℝ) - (m.tick : ℝ)) / 1000.0,
   ((((e.x : ℤ) - (m.x : ℤ)).natAbs : ℝ)) / (e.gridSize : ℝ),
   ((((e.y : ℤ) - (m.y : ℤ)).natAbs : ℝ)) / (e.gridSize : ℝ),
   m.field1, m.field2, m.field3, m.field4, m.field5, m.confidence,
   if m.outcome = .energyGained then 1.0
   else if m.outcome = .energyLost then -1.0 else 0.0]

/-- `getMemorySummary()`: 50 zeros overwritten blockwise with the encodings
of the up-to-5 most recent experiences, most recent first. -/
def getMemorySummary (e : Entity) (now : ℕ) : List ℝ :=
  if e.memory.isEmpty then List.replicate 50 0
  else
    let recent := e.memory.drop (e.memory.length - 5)
    (List.range 5).flatMap (fun i =>
      if i < recent.length then
        encodeMemory e now (recent.getD (recent.length - 1 - i) defMemory)
      else List.replicate 10 0)

/-- `getCellInput(tick)`: vision fields (81×5), vision confidences (81),
6 internal values with harmonic time encoding, and the 50-value memory
summary. -/
def getCellInput (e : Entity) (tick : ℕ) (now : ℕ) : List ℝ :=
  (e.vision.flatMap (fun v =>
    [v.field1, v.field2, v.field3, v.field4, v.field5])) ++
  (e.vision.map (fun v => v.confidence)) ++
  [e.energy / 100.0, (e.x : ℝ) / (e.gridSize : ℝ),
   (e.y : ℝ) / (e.gridSize : ℝ),
   Real.sin (2 * Real.pi * (((tick % 100 : ℕ) : ℝ) / 100.0)),
   Real.cos (2 * Real.pi * (((tick % 100 : ℕ) : ℝ) / 100.0)),
   ((tick % 100 : ℕ) : ℝ) / 100.0] ++
  getMemorySummary e now

/-- The cumulative-probability walk of `makeDecision`: one uniform draw,
walk the running sum, defaulting to 4 ('stay') when rounding leaves the sum
short. -/
def samplePick (r : ℝ) : List ℝ → ℝ → ℕ → ℕ
  | [], _, _ => 4
  | p :: rest, acc, i =>
    if r < acc + p then i else samplePick r rest (acc + p) (i + 1)

/-- `makeDecision(tick)`: forward pass then multinomial sampling. -/
def makeDecision (e : Entity) (tick : ℕ) (o : EntityOracle) : ℕ :=
  samplePick o.decideRand (forward e.brain (getCellInput e tick o.now)) 0 0

/-- The five fixed moves (`up, down, left, right, stay`); an out-of-range
index (impossible via `makeDecision`) stays put. -/
def moveVec : ℕ → ℤ × ℤ
  | 0 => (0, -1)
  | 1 => (0, 1)
  | 2 => (-1, 0)
  | 3 => (1, 0)
  | _ => (0, 0)

def actName : ℕ → ActName
  | 0 => .up
  | 1 => .down
  | 2 => .leftA
  | 3 => .rightA
  | 4 => .stay
  | _ => .unknown

/-- `executeAction(action)`: toroidal move plus recording of the action
name and index. -/
def executeAction (e : Entity) (action : ℕ) : Entity :=
  { e with x := wrap e.gridSize e.x (moveVec action).1,
           y := wrap e.gridSize e.y (moveVec action).2,
           lastAction := actName action,
           lastActionIndex := action }

/-- `applyREINFORCELearning()`: skip on an empty reward window or a
negligible mean; otherwise nudge the policy at `lastActionIndex` with the
mean reward, learning rate 0.001, using `getCellInput(0)` as the
approximate input. -/
def applyREINFORCELearning (e : Entity) (now : ℕ) : Entity :=
  if e.recentOutcomes.isEmpty then e
  else
    let avgReward := (e.recentOutcomes.map (fun r => r.reward)).sum /
      (e.recentOutcomes.length : ℝ)
    if |avgReward| < 0.01 then e
    else { e with brain := (applyREINFORCE e.brain (getCellInput e 0 now)
      e.lastActionIndex avgReward 0.001) }

/-- The energy/reward phase at the top of
`update(world, otherEntities, tick)`: passive decay and ageing, energy
consumption with its reward-window bookkeeping, the low-energy penalty, and
the pruning of reward-window entries older than 10 ticks. -/
def outcomesPhase (e : Entity) (w : World) (tick : ℕ) : Entity × World :=
  let e1 := { e with energy := e.energy - 0.5, age := e.age + 1 }
  let cr := consumeEnergy w e1.x e1.y
  let e2 := if cr.1 > 0 then
      { e1 with energy := e1.energy + cr.1,
                totalEnergyGained := e1.totalEnergyGained + cr.1,
                recentOutcomes := e1.recentOutcomes ++
                  [⟨e1.lastActionIndex, 1.0, tick⟩] }
    else e1
  let e3 := if e2.energy < 20 then
      { e2 with recentOutcomes := e2.recentOutcomes ++
          [⟨e2.lastActionIndex, -0.1, tick⟩] }
    else e2
  let e4 := { e3 with recentOutcomes :=
    (e3.recentOutcomes.filter (fun r => tick - r.tick ≤ 10)) }
  (e4, cr.2)

/-- Everything `update(world, otherEntities, tick)` does before the
decision/learning block: the energy/reward phase, the vision refresh, and
the memory record of the current observation. -/
def preDecisionState (e : Entity) (w : World) (others : List Entity)
    (tick : ℕ) (o : EntityOracle) : Entity × World :=
  let p := outcomesPhase e w tick
  let e5 := updateVision p.1 p.2 others o
  let e6 :=
    match e5.vision.find? (fun v => v.distance = 0) with
    | none => e5
    | some obs =>
      let previousEnergy := e5.energy + 0.5
      let outcome : OutcomeTag :=
        if e5.totalEnergyGained > e5.lastTotalEnergy then .energyGained
        else if e5.energy < previousEnergy - 0.5 then .energyLost
        else .moved
      let e6a := addMemory e5
        ⟨obs.field1, obs.field2, obs.field3, obs.field4, obs.field5,
         obs.confidence, e5.lastAction, outcome⟩ tick
      { e6a with lastTotalEnergy := e6a.totalEnergyGained }
  (e6, p.2)

/-- `update(world, otherEntities, tick)`: the pre-decision phase, then —
in source order — `makeDecision`, `applyREINFORCELearning`,
`executeAction`, and the fitness recomputation
`fitness = age + totalEnergyGained`.  The caller reads `alive` as
`energy > 0` on the result. -/
def update (e : Entity) (w : World) (others : List Entity) (tick : ℕ)
    (o : EntityOracle) : Entity × World :=
  let p := preDecisionState e w others tick o
  let action := makeDecision p.1 tick o
  let e7 := applyREINFORCELearning p.1 o.now
  let e8 := executeAction e7 action
  ({ e8 with fitness := (e8.age : ℝ) + e8.totalEnergyGained }, p.2)

/-- Modelled from the spec: the update ordering the specification describes,
in which `applyOutputNudge` is applied to the policy BEFORE the tick's next
action is chosen and acted on ("apply `applyOutputNudge` … **before**
choosing/acting on the next action").  Identical to `update` except that the
nudge precedes `makeDecision`. -/
def updateSpecNudgeFirst (e : Entity) (w : World) (others : List Entity)
    (tick : ℕ) (o : EntityOracle) : Entity × World :=
  let p := preDecisionState e w others tick o
  let e7 := applyREINFORCELearning p.1 o.now
  let action := makeDecision e7 tick o
  let e8 := executeAction e7 action
  ({ e8 with fitness := (e8.age : ℝ) + e8.totalEnergyGained }, p.2)

/-- `reproduce(mutationRate, mutationStrength)`: a freshly constructed
random entity carrying a mutated copy of this entity's policy. -/
def reproduce (e : Entity) (rate strength : ℝ) (bo : BirthOracle) : Entity :=
  { mkEntity none none none e.gridSize bo with
      brain := mutate e.brain rate strength bo.mutO }

/-- `clone()`: a new entity at the same position carrying a cloned brain and
copied energy/age/totalEnergyGained/fitness (memory and reward window start
empty, the id is fresh). -/
def cloneEntity (e : Entity) (bo : BirthOracle) : Entity :=
  { mkEntity (some e.x) (some e.y) none e.gridSize bo with
      brain := NeuralNetwork.clone e.brain,
      energy := e.energy, age := e.age,
      totalEnergyGained := e.totalEnergyGained, fitness := e.fitness }

/-! ### C7: ordering of the output nudge within `update` -/

theorem update_unfold (e : Entity) (w : World) (others : List Entity)
    (tick : ℕ) (o : EntityOracle) :
    (update e w others tick o).1.lastActionIndex =
      makeDecision (preDecisionState e w others tick o).1 tick o ∧
    (update e w others tick o).1.brain =
      (applyREINFORCELearning (preDecisionState e w others tick o).1
        o.now).brain ∧
    (update e w others tick o).1.x =
      (executeAction (applyREINFORCELearning
        (preDecisionState e w others tick o).1 o.now)
        (makeDecision (preDecisionState e w others tick o).1 tick o)).x :=
  ⟨rfl, rfl, rfl⟩

theorem updateSpecNudgeFirst_unfold (e : Entity) (w : World)
    (others : List Entity) (tick : ℕ) (o : EntityOracle) :
    (updateSpecNudgeFirst e w others tick o).1.lastActionIndex =
      makeDecision (applyREINFORCELearning
        (preDecisionState e w others tick o).1 o.now) tick o :=
  rfl

theorem addMemory_proj (e : Entity) (obs : Observation) (tick : ℕ) :
    (addMemory e obs tick).brain = e.brain ∧
    (addMemory e obs tick).vision = e.vision ∧
    (addMemory e obs tick).recentOutcomes = e.recentOutcomes ∧
    (addMemory e obs tick).lastActionIndex = e.lastActionIndex :=
  ⟨rfl, rfl, rfl, rfl⟩

theorem outcomesPhase_proj (e : Entity) (w : World) (tick : ℕ) :
    (outcomesPhase e w tick).1.brain = e.brain ∧
    (outcomesPhase e w tick).1.lastActionIndex = e.lastActionIndex ∧
    (outcomesPhase e w tick).1.gridSize = e.gridSize := by
  unfold outcomesPhase
  dsimp only
  refine ⟨?_, ?_, ?_⟩ <;> (repeat' split) <;> rfl

theorem updateVision_vision_length (e : Entity) (w : World)
    (others : List Entity) (o : EntityOracle) :
    (updateVision e w others o).vision.length = 81 := by
  show (visionOffsets.enum.map _).length = 81
  rw [List.length_map, List.enum_length]
  rfl

theorem preDecisionState_proj (e : Entity) (w : World)
    (others : List Entity) (tick : ℕ) (o : EntityOracle) :
    (preDecisionState e w others tick o).1.brain = e.brain ∧
    (preDecisionState e w others tick o).1.lastActionIndex =
      e.lastActionIndex ∧
    (preDecisionState e w others tick o).1.recentOutcomes =
      (outcomesPhase e w tick).1.recentOutcomes ∧
    (preDecisionState e w others tick o).1.vision.length = 81 := by
  obtain ⟨hb, hl, _⟩ := outcomesPhase_proj e w tick
  unfold preDecisionState
  dsimp only
  split
  · exact ⟨hb, hl, rfl, updateVision_vision_length _ _ _ _⟩
  · exact ⟨hb, hl, rfl, updateVision_vision_length _ _ _ _⟩

theorem getCellInput_brain_irrel (e : Entity) (b : Net) (tick now : ℕ) :
    getCellInput { e with brain := b } tick now = getCellInput e tick now :=
  rfl

/-- C7 (corrected): within a single `Agent.update`, the reward-weighted
output nudge — `applyOutputNudge` with the mean of the trailing reward
window, skipped when the window is empty or the mean is negligible — is
applied to the policy AFTER the tick's next action has been chosen from the
pre-nudge policy, and BEFORE the chosen action is executed: the recorded
action index is the decision made on the pre-nudge state, the resulting
brain is the nudged one, and the move is executed on the post-nudge
entity. -/
theorem nudge_applied_after_decision (e : Entity) (w : World)
    (others : List Entity) (tick : ℕ) (o : EntityOracle) :
    ((update e w others tick o).1.lastActionIndex =
      makeDecision (preDecisionState e w others tick o).1 tick o ∧
     (update e w others tick o).1.brain =
      (applyREINFORCELearning (preDecisionState e w others tick o).1
        o.now).brain ∧
     (update e w others tick o).1.x =
      (executeAction (applyREINFORCELearning
        (preDecisionState e w others tick o).1 o.now)
        (makeDecision (preDecisionState e w others tick o).1 tick o)).x) ∧
    (∀ e' : Entity, e'.recentOutcomes = [] →
      applyREINFORCELearning e' o.now = e') ∧
    (∀ e' : Entity,
      |(e'.recentOutcomes.map (fun r => r.reward)).sum /
        (e'.recentOutcomes.length : ℝ)| < 0.01 →
      applyREINFORCELearning e' o.now = e') := by
  refine ⟨update_unfold e w others tick o, ?_, ?_⟩
  · intro e' h
    unfold applyREINFORCELearning
    rw [h]
    rfl
  · intro e' h
    unfold applyREINFORCELearning
    by_cases he : e'.recentOutcomes.isEmpty
    · rw [if_pos he]
    · rw [if_neg he]
      dsimp only
      rw [if_pos h]

theorem dot_replicate_zero (x : List ℝ) :
    ∀ n, dot (List.replicate n (0 : ℝ)) x = 0 := by
  induction x with
  | nil =>
    intro n
    cases n <;> simp [dot]
  | cons a t ih =>
    intro n
    cases n with
    | zero => simp [dot]
    | succ m => simpa [dot, List.replicate_succ] using ih m

theorem sum_nonpos_list (l : List ℝ) (h : ∀ a ∈ l, a ≤ 0) : l.sum ≤ 0 := by
  induction l with
  | nil => simp
  | cons a t ih =>
    simp only [List.sum_cons]
    have ha := h a (by simp)
    have ht := ih (fun b hb => h b (by simp [hb]))
    linarith

theorem enum_replicate_map (c : ℝ) (x : List ℝ) (n : ℕ) :
    (List.replicate n (0 : ℝ)).enum.map (fun p => p.2 + c * x.getD p.1 0) =
      (List.range n).map (fun i => c * x.getD i 0) := by
  apply List.ext_getElem
  · simp
  · intro i h1 h2
    simp [List.getElem_enum]

theorem zip_range'_selfdot (c : ℝ) (x : List ℝ) :
    ∀ (t : List ℝ) (s n : ℕ),
      (∀ i, x.getD (s + i) 0 = t.getD i 0) → t.length ≤ n →
      List.zipWith (· * ·)
        ((List.range' s n).map (fun i => c * x.getD i 0)) t =
        t.map (fun a => c * a * a)
  | [], s, n, _, _ => by simp
  | a :: t', s, 0, _, hlen => by simp at hlen
  | a :: t', s, n + 1, hidx, hlen => by
    have h0 : x.getD s 0 = a := by simpa using hidx 0
    have hrec := zip_range'_selfdot c x t' (s + 1) n
      (fun i => by
        simpa [show s + 1 + i = s + (i + 1) by omega] using hidx (i + 1))
      (by simpa using hlen)
    simp only [List.range'_succ, List.map_cons, List.zipWith_cons_cons]
    rw [h0, hrec]

theorem dot_nudgeRow_nonpos (x : List ℝ) (lr r : ℝ) (h : lr * r ≤ 0)
    (n : ℕ) (hn : x.length ≤ n) :
    dot (nudgeRow (List.replicate n (0 : ℝ)) x lr r) x ≤ 0 := by
  unfold nudgeRow dot
  rw [enum_replicate_map (lr * r) x n, List.range_eq_range',
    zip_range'_selfdot (lr * r) x x 0 n (fun i => by simp) hn]
  apply sum_nonpos_list
  intro a ha
  rcases List.mem_map.mp ha with ⟨b, _, rfl⟩
  have h2 := mul_nonneg (neg_nonneg.mpr h) (mul_self_nonneg b)
  nlinarith [h2]

theorem length_flatMap_const {α β : Type} (l : List α) (f : α → List β)
    (k : ℕ) (h : ∀ a ∈ l, (f a).length = k) :
    (l.flatMap f).length = l.length * k := by
  induction l with
  | nil => simp
  | cons a t ih =>
    have ha := h a (by simp)
    have ht := ih (fun b hb => h b (by simp [hb]))
    simp only [List.flatMap_cons, List.length_append, List.length_cons,
      ha, ht]
    ring

theorem getMemorySummary_length (e : Entity) (now : ℕ) :
    (getMemorySummary e now).length = 50 := by
  unfold getMemorySummary
  split
  · simp
  · rw [length_flatMap_const _ _ 10 (by
      intro i _
      split
      · rfl
      · simp)]
    simp

theorem getCellInput_length (e : Entity) (tick now : ℕ)
    (hv : e.vision.length = 81) :
    (getCellInput e tick now).length = 542 := by
  unfold getCellInput
  rw [List.length_append, List.length_append, List.length_append,
    length_flatMap_const _ _ 5 (by intro v _; rfl), List.length_map,
    getMemorySummary_length, hv]
  norm_num

/-- The one-layer 542→5 policy with all parameters zero, used in the C7
counterexample. -/
def cxBrain : Net :=
  ⟨[⟨List.replicate 5 (List.replicate 542 (0 : ℝ)), List.replicate 5 0⟩]⟩

/-- An entity at (0,0) on the 1×1 world, energy 10 (so a −0.1 outcome is
recorded this tick), carrying `cxBrain`. -/
def cxEntity : Entity :=
  { x := 0, y := 0, gridSize := 1, energy := 10, age := 0,
    totalEnergyGained := 0, fitness := 0, brain := cxBrain, vision := [],
    memory := [], memoryCapacity := 50, recentOutcomes := [],
    lastTotalEnergy := 0, lastAction := .unknown, lastActionIndex := 4,
    id := 0 }

/-- Oracle: zero noise, sampling draw 4/5, wall clock 0. -/
def cxOracle : EntityOracle :=
  { queryNoise := fun _ _ => 1 / 2, decideRand := 4 / 5, now := 0 }

theorem linearLayer_cxZero (x : List ℝ) :
    linearLayer ⟨List.replicate 5 (List.replicate 542 (0 : ℝ)),
      List.replicate 5 0⟩ x = [0, 0, 0, 0, 0] := by
  have h5w : List.replicate 5 (List.replicate 542 (0 : ℝ)) =
      [List.replicate 542 0, List.replicate 542 0, List.replicate 542 0,
       List.replicate 542 0, List.replicate 542 0] := rfl
  have h5b : List.replicate 5 (0 : ℝ) = [0, 0, 0, 0, 0] := rfl
  unfold linearLayer
  rw [h5w, h5b]
  simp only [List.zipWith_cons_cons, List.zipWith_nil_left,
    dot_replicate_zero, add_zero, zero_add]

theorem softmax_zeros :
    softmax [0, 0, 0, 0, (0 : ℝ)] = [1/5, 1/5, 1/5, 1/5, 1/5] := by
  unfold softmax listMax
  norm_num [Real.exp_zero]

theorem samplePick_uniform :
    samplePick (4/5 : ℝ) [1/5, 1/5, 1/5, 1/5, 1/5] 0 0 = 4 := by
  norm_num [samplePick]

theorem forward_cxBrain (x : List ℝ) :
    forward cxBrain x = [1/5, 1/5, 1/5, 1/5, 1/5] := by
  unfold forward cxBrain
  rw [show forwardAux [(⟨List.replicate 5 (List.replicate 542 (0 : ℝ)),
      List.replicate 5 0⟩ : Layer)] x =
    linearLayer ⟨List.replicate 5 (List.replicate 542 0),
      List.replicate 5 0⟩ x from rfl]
  rw [linearLayer_cxZero, softmax_zeros]

theorem softmax_four_zeros_neg (L : ℝ) (hL : L < 0) :
    softmax [0, 0, 0, 0, L] =
      [1/(4 + Real.exp L), 1/(4 + Real.exp L), 1/(4 + Real.exp L),
       1/(4 + Real.exp L), Real.exp L/(4 + Real.exp L)] := by
  unfold softmax listMax
  have hmax : List.foldl max (List.headD [0, 0, 0, 0, L] 0)
      [0, 0, 0, 0, L] = 0 := by
    simp [max_self, max_eq_left hL.le]
  rw [hmax]
  norm_num [Real.exp_zero]
  constructor
  · ring_nf
  · ring_nf

theorem samplePick_fourth (p : ℝ) (h0 : 0 < p) (h1 : p < 1) :
    samplePick (4/5 : ℝ)
      [1/(4 + p), 1/(4 + p), 1/(4 + p), 1/(4 + p), p/(4 + p)] 0 0 = 3 := by
  have hs : (0 : ℝ) < 4 + p := by linarith
  have hq : 1/(4 + p) < 1/4 := by
    rw [div_lt_div_iff₀ hs (by norm_num)]
    linarith
  have hqpos : 0 < 1/(4 + p) := by positivity
  unfold samplePick
  rw [if_neg (by push_neg; nlinarith)]
  unfold samplePick
  rw [if_neg (by push_neg; nlinarith)]
  unfold samplePick
  rw [if_neg (by push_neg; nlinarith)]
  unfold samplePick
  rw [if_pos (by
    have hsum : ((0 + 1/(4+p)) + 1/(4+p)) + 1/(4+p) + 1/(4+p) =
        4/(4+p) := by ring
    rw [hsum, div_lt_div_iff₀ (by norm_num) hs]
    nlinarith)]

theorem forward_nudged_cxBrain (x' : List ℝ) (hlen : x'.length ≤ 542)
    (r lr : ℝ) (h1 : ¬(|r| < 0.01)) (h2 : lr * r < 0) :
    ∃ L : ℝ, L < 0 ∧
      forward (applyREINFORCE cxBrain x' 4 r lr) x' =
        [1/(4 + Real.exp L), 1/(4 + Real.exp L), 1/(4 + Real.exp L),
         1/(4 + Real.exp L), Real.exp L/(4 + Real.exp L)] := by
  have hnet : applyREINFORCE cxBrain x' 4 r lr =
      ⟨[⟨[List.replicate 542 (0 : ℝ), List.replicate 542 0,
          List.replicate 542 0, List.replicate 542 0,
          nudgeRow (List.replicate 542 0) x' lr r],
         [0, 0, 0, 0, 0 + lr * r]⟩]⟩ := by
    unfold applyREINFORCE cxBrain
    rw [if_neg h1]
    rfl
  refine ⟨(0 + lr * r) + dot (nudgeRow (List.replicate 542 0) x' lr r) x',
    ?_, ?_⟩
  · have := dot_nudgeRow_nonpos x' lr r h2.le 542 hlen
    linarith
  · rw [hnet]
    unfold forward
    rw [show forwardAux [(⟨[List.replicate 542 (0 : ℝ),
        List.replicate 542 0, List.replicate 542 0, List.replicate 542 0,
        nudgeRow (List.replicate 542 0) x' lr r],
        [0, 0, 0, 0, 0 + lr * r]⟩ : Layer)] x' =
      linearLayer ⟨[List.replicate 542 0, List.replicate 542 0,
        List.replicate 542 0, List.replicate 542 0,
        nudgeRow (List.replicate 542 0) x' lr r],
        [0, 0, 0, 0, 0 + lr * r]⟩ x' from rfl]
    rw [show linearLayer ⟨[List.replicate 542 (0 : ℝ),
        List.replicate 542 0, List.replicate 542 0, List.replicate 542 0,
        nudgeRow (List.replicate 542 0) x' lr r],
        [0, 0, 0, 0, 0 + lr * r]⟩ x' =
      [0, 0, 0, 0,
        (0 + lr * r) + dot (nudgeRow (List.replicate 542 0) x' lr r) x']
      from by
        unfold linearLayer
        norm_num [dot_replicate_zero]]
    exact softmax_four_zeros_neg _ (by
      have := dot_nudgeRow_nonpos x' lr r h2.le 542 hlen
      linarith)

theorem outcomesPhase_cx :
    (outcomesPhase cxEntity tinyWorld 0).1.recentOutcomes =
      [⟨4, -0.1, 0⟩] := by
  unfold outcomesPhase cxEntity
  dsimp only
  rw [show consumeEnergy tinyWorld 0 0 = ((0 : ℝ), tinyWorld) from rfl]
  norm_num

theorem update_cx_action :
    (update cxEntity tinyWorld [] 0 cxOracle).1.lastActionIndex = 4 := by
  have h := (update_unfold cxEntity tinyWorld [] 0 cxOracle).1
  rw [h]
  unfold makeDecision
  rw [(preDecisionState_proj cxEntity tinyWorld [] 0 cxOracle).1]
  rw [show cxEntity.brain = cxBrain from rfl]
  rw [forward_cxBrain]
  exact samplePick_uniform

theorem updateSpecNudgeFirst_cx_action :
    (updateSpecNudgeFirst cxEntity tinyWorld [] 0 cxOracle).1.lastActionIndex
      = 3 := by
  rw [updateSpecNudgeFirst_unfold]
  obtain ⟨hb, hl, ho, hv⟩ :=
    preDecisionState_proj cxEntity tinyWorld [] 0 cxOracle
  rw [outcomesPhase_cx] at ho
  rw [show cxEntity.brain = cxBrain from rfl] at hb
  rw [show cxEntity.lastActionIndex = 4 from rfl] at hl
  generalize hPdef :
    (preDecisionState cxEntity tinyWorld [] 0 cxOracle).1 = P at *
  have havg : (P.recentOutcomes.map (fun r => r.reward)).sum /
      (P.recentOutcomes.length : ℝ) = -0.1 := by
    rw [ho]
    norm_num
  have hne : P.recentOutcomes.isEmpty = false := by
    rw [ho]
    rfl
  have h420 : ¬((|(-0.1 : ℝ)|) < 0.01) := by
    rw [abs_neg, abs_of_nonneg (by norm_num : (0 : ℝ) ≤ 0.1)]
    norm_num
  have h7 : applyREINFORCELearning P cxOracle.now =
      { P with brain := (applyREINFORCE cxBrain
          (getCellInput P 0 cxOracle.now) 4 (-0.1) 0.001) } := by
    unfold applyREINFORCELearning
    dsimp only
    rw [hne, if_neg (show ¬(false = true) by simp)]
    rw [havg, if_neg h420, hb, hl]
  rw [h7]
  unfold makeDecision
  rw [show ∀ b : Net, ({ P with brain := b } : Entity).brain = b
    from fun _ => rfl]
  rw [show getCellInput { P with brain := (applyREINFORCE cxBrain
      (getCellInput P 0 cxOracle.now) 4 (-0.1) 0.001) } 0 cxOracle.now =
    getCellInput P 0 cxOracle.now from rfl]
  have hxlen : (getCellInput P 0 cxOracle.now).length = 542 :=
    getCellInput_length P 0 _ hv
  obtain ⟨L, hL, hfwd⟩ := forward_nudged_cxBrain
    (getCellInput P 0 cxOracle.now) hxlen.le (-0.1) 0.001
    h420 (by norm_num)
  rw [hfwd]
  exact samplePick_fourth (Real.exp L) (Real.exp_pos L)
    (Real.exp_lt_one_iff.mpr hL)

/-- Counterexample to C7 as stated: on the concrete entity `cxEntity` in the
1×1 world with sampling draw 4/5, the code's `update` (decision before
nudge) records action 4, while the specification's ordering (nudge before
decision, `updateSpecNudgeFirst`) would record action 3 — so the nudge is
NOT applied before the tick's action is chosen. -/
theorem update_nudge_order_cx :
    (update cxEntity tinyWorld [] 0 cxOracle).1.lastActionIndex = 4 ∧
    (updateSpecNudgeFirst cxEntity tinyWorld [] 0
      cxOracle).1.lastActionIndex = 3 ∧
    (4 : ℕ) ≠ 3 :=
  ⟨update_cx_action, updateSpecNudgeFirst_cx_action, by decide⟩

/-- Witness for the corrected C7 theorem: its skip-condition parts applied
at `cxEntity` (whose reward window is empty) and its ordering part at the
same concrete input. -/
theorem nudge_applied_after_decision_witness :
    cxEntity.recentOutcomes = [] ∧
    applyREINFORCELearning cxEntity cxOracle.now = cxEntity ∧
    (update cxEntity tinyWorld [] 0 cxOracle).1.lastActionIndex =
      makeDecision (preDecisionState cxEntity tinyWorld [] 0 cxOracle).1 0
        cxOracle := by
  have h := nudge_applied_after_decision cxEntity tinyWorld [] 0 cxOracle
  exact ⟨rfl, h.2.1 cxEntity rfl, h.1.1⟩

theorem applyRL_energy (e : Entity) (now : ℕ) :
    (applyREINFORCELearning e now).energy = e.energy := by
  unfold applyREINFORCELearning
  dsimp only
  split_ifs <;> rfl

theorem preDecisionState_energy (e : Entity) (w : World)
    (others : List Entity) (tick : ℕ) (o : EntityOracle) :
    (preDecisionState e w others tick o).1.energy =
      (outcomesPhase e w tick).1.energy := by
  unfold preDecisionState
  dsimp only
  split
  · rfl
  · rfl

theorem update_energy (e : Entity) (w : World) (others : List Entity)
    (tick : ℕ) (o : EntityOracle) :
    (ConsciousEntity.update e w others tick o).1.energy =
      (outcomesPhase e w tick).1.energy := by
  show (applyREINFORCELearning (preDecisionState e w others tick o).1
    o.now).energy = _
  rw [applyRL_energy, preDecisionState_energy]

end ConsciousEntity

/-! ## The population controller (`src/evolution/PopulationManager.js`) -/

namespace PopulationManager

open ConsciousEntity NeuralNetwork WorldPhysics

/-- The `PopulationManager` state (the rolling `generationStats` window feeds
only the statistics queries and is not modelled). -/
structure Pop where
  populationSize : ℕ
  gridSize : ℕ
  entities : List ConsciousEntity.Entity
  generation : ℕ
  totalDeaths : ℕ
  bestFitness : ℝ
  allTimeBest : Option ConsciousEntity.Entity
  mutationRate : ℝ
  mutationStrength : ℝ

/-- `initializePopulation()`: `populationSize` fresh random entities. -/
def initializePopulation (n gs : ℕ) (bo : ℕ → BirthOracle) :
    List ConsciousEntity.Entity :=
  (List.range n).map (fun i => mkEntity none none none gs (bo i))

/-- The `PopulationManager` constructor. -/
def mkPop (n gs : ℕ) (bo : ℕ → BirthOracle) : Pop :=
  { populationSize := n, gridSize := gs,
    entities := initializePopulation n gs bo,
    generation := 0, totalDeaths := 0, bestFitness := 0,
    allTimeBest := none, mutationRate := 0.1, mutationStrength := 0.1 }

/-- `findBestLivingEntity()`: scan the roster keeping the first living
entity of strictly maximal fitness (`bestFitness` starts at −1). -/
def findBestLivingEntity (l : List ConsciousEntity.Entity) :
    Option ConsciousEntity.Entity :=
  (l.foldl (fun acc e =>
    if e.energy > 0 ∧ e.fitness > acc.2 then (some e, e.fitness) else acc)
    ((none : Option ConsciousEntity.Entity), (-1 : ℝ))).1

/-- The randomness consumed by one death: the birth draws of the
replacement (fresh constructor or `reproduce`) and the fresh identity of
the best-ever `clone()` snapshot. -/
structure DeathOracle where
  birth : BirthOracle
  cloneB : BirthOracle

/-- `handleEntityDeath(entityIndex)`: bump `totalDeaths`, snapshot a new
all-time best if the dying entity beats it, breed from the best living
entity (or construct a fresh random one if none is living), overwrite the
dead entity's slot, and bump `generation`. -/
def handleEntityDeath (pop : Pop) (i : ℕ) (o : DeathOracle) : Pop :=
  match pop.entities.get? i with
  | none => pop
  | some dead =>
    let pop1 := { pop with totalDeaths := pop.totalDeaths + 1 }
    let pop2 := if dead.fitness > pop1.bestFitness then
        { pop1 with bestFitness := dead.fitness,
                    allTimeBest := some (cloneEntity dead o.cloneB) }
      else pop1
    let newEntity :=
      match findBestLivingEntity pop2.entities with
      | some p => ConsciousEntity.reproduce p pop2.mutationRate
          pop2.mutationStrength o.birth
      | none => mkEntity none none none pop2.gridSize o.birth
    { pop2 with entities := pop2.entities.set i newEntity,
                generation := pop2.generation + 1 }

/-- The randomness consumed by one `update`: per-slot entity oracles and
per-slot death oracles. -/
structure PopOracle where
  ent : ℕ → EntityOracle
  death : ℕ → DeathOracle

/-- One iteration of the `update` loop at slot `i`: skip empty/dead slots,
update the entity in place, and on `alive = false` replace it synchronously
within the same call. -/
def updateSlot (living : List ConsciousEntity.Entity) (tick : ℕ)
    (o : PopOracle) (i : ℕ) (st : Pop × World) : Pop × World :=
  match st.1.entities.get? i with
  | none => st
  | some e =>
    if e.energy ≤ 0 then st
    else
      let r := ConsciousEntity.update e st.2 living tick (o.ent i)
      let pop' := { st.1 with entities := st.1.entities.set i r.1 }
      if r.1.energy > 0 then (pop', r.2)
      else (handleEntityDeath pop' i (o.death i), r.2)

/-- The `for (let i = 0; ...)` loop of `update`, with explicit fuel equal to
the roster length. -/
def updateAux (living : List ConsciousEntity.Entity) (tick : ℕ)
    (o : PopOracle) : ℕ → ℕ → Pop × World → Pop × World
  | 0, _, st => st
  | fuel + 1, i, st =>
    updateAux living tick o fuel (i + 1) (updateSlot living tick o i st)

/-- `update(world, tick)`: snapshot the living entities, then process every
slot in order. -/
def update (pop : Pop) (w : World) (tick : ℕ) (o : PopOracle) : Pop × World :=
  updateAux (pop.entities.filter (fun e => e.energy > 0)) tick o
    pop.entities.length 0 (pop, w)

/-- `forceEvolution()`: replace the weakest living entity with a mutated
offspring of the strongest living entity, bypassing the death condition. -/
def forceEvolution (pop : Pop) (bo : BirthOracle) : Pop :=
  if pop.entities.isEmpty then pop
  else if (pop.entities.filter (fun e => e.energy > 0)).isEmpty then pop
  else
    let r := pop.entities.enum.foldl
      (fun (acc : Option (ℕ × ℝ) × Option ConsciousEntity.Entity × ℝ) p =>
        if p.2.energy ≤ 0 then acc
        else
          let weak' :=
            match acc.1 with
            | none => some (p.1, p.2.fitness)
            | some (wi, wf) =>
              if p.2.fitness < wf then some (p.1, p.2.fitness)
              else some (wi, wf)
          let strong' := if p.2.fitness > acc.2.2 then
              ((some p.2 : Option ConsciousEntity.Entity), p.2.fitness)
            else acc.2
          (weak', strong'))
      (none, none, -1)
    match r.1, r.2.1 with
    | some (wi, _), some s =>
      { pop with entities := (pop.entities.set wi
          (ConsciousEntity.reproduce s pop.mutationRate pop.mutationStrength
            bo)) }
    | _, _ => pop

/-- `reset()`: reinitialise the roster and counters. -/
def reset (pop : Pop) (bo : ℕ → BirthOracle) : Pop :=
  { pop with generation := 0, totalDeaths := 0, bestFitness := 0,
             allTimeBest := none,
             entities := initializePopulation pop.populationSize
               pop.gridSize bo }

/-! ### C8: the roster size is invariant -/

/-- One external operation on the population (the operations the claim
quantifies over). -/
inductive PopOp where
  | updOp (w : World) (tick : ℕ) (o : PopOracle)
  | forceOp (bo : BirthOracle)

def applyOp (pop : Pop) : PopOp → Pop
  | .updOp w tick o => (update pop w tick o).1
  | .forceOp bo => forceEvolution pop bo

def applyOps (pop : Pop) : List PopOp → Pop
  | [] => pop
  | op :: rest => applyOps (applyOp pop op) rest

theorem handleEntityDeath_length (pop : Pop) (i : ℕ) (o : DeathOracle) :
    (handleEntityDeath pop i o).entities.length = pop.entities.length := by
  unfold handleEntityDeath
  cases hget : pop.entities.get? i with
  | none => rfl
  | some dead =>
    dsimp only
    split_ifs <;> simp

theorem updateSlot_length (living : List ConsciousEntity.Entity) (tick : ℕ)
    (o : PopOracle) (i : ℕ) (st : Pop × World) :
    (updateSlot living tick o i st).1.entities.length =
      st.1.entities.length := by
  unfold updateSlot
  cases hget : st.1.entities.get? i with
  | none => rfl
  | some e =>
    dsimp only
    split_ifs with h1 h2
    · rfl
    · simp
    · rw [handleEntityDeath_length]
      simp

theorem updateAux_length (living : List ConsciousEntity.Entity) (tick : ℕ)
    (o : PopOracle) :
    ∀ (fuel i : ℕ) (st : Pop × World),
      (updateAux living tick o fuel i st).1.entities.length =
        st.1.entities.length
  | 0, _, st => rfl
  | fuel + 1, i, st => by
    rw [show updateAux living tick o (fuel + 1) i st =
      updateAux living tick o fuel (i + 1) (updateSlot living tick o i st)
      from rfl]
    rw [updateAux_length living tick o fuel (i + 1) _,
      updateSlot_length]

theorem update_length (pop : Pop) (w : World) (tick : ℕ) (o : PopOracle) :
    (update pop w tick o).1.entities.length = pop.entities.length := by
  unfold update
  rw [updateAux_length]

theorem forceEvolution_length (pop : Pop) (bo : BirthOracle) :
    (forceEvolution pop bo).entities.length = pop.entities.length := by
  unfold forceEvolution
  split_ifs
  · rfl
  · rfl
  · dsimp only
    split
    · simp
    · rfl

/-- C8: the roster size is invariant — after any sequence of `update` and
`forceEvolution` calls on a freshly constructed population, the agent slot
array has exactly the configured population size; every death overwrites a
slot in place and nothing appends or removes slots. -/
theorem population_size_invariant (n gs : ℕ) (bo : ℕ → BirthOracle)
    (ops : List PopOp) :
    (applyOps (mkPop n gs bo) ops).entities.length = n := by
  have hlen : ∀ (pop : Pop) (ops' : List PopOp),
      (applyOps pop ops').entities.length = pop.entities.length := by
    intro pop ops'
    induction ops' generalizing pop with
    | nil => rfl
    | cons op rest ih =>
      rw [show applyOps pop (op :: rest) = applyOps (applyOp pop op) rest
        from rfl, ih]
      cases op with
      | updOp w tick o => exact update_length pop w tick o
      | forceOp b => exact forceEvolution_length pop b
  rw [hlen]
  simp [mkPop, initializePopulation]

/-! ### C1: synchronous fitness-based replacement on death -/

theorem findBest_fold_some :
    ∀ (l : List ConsciousEntity.Entity) (b : ConsciousEntity.Entity),
      b.energy > 0 →
      ∃ b', l.foldl (fun acc e =>
          if e.energy > 0 ∧ e.fitness > acc.2 then (some e, e.fitness)
          else acc) ((some b : Option ConsciousEntity.Entity), b.fitness) =
          (some b', b'.fitness) ∧
        b'.energy > 0 ∧ b.fitness ≤ b'.fitness ∧
        (∀ e ∈ l, e.energy > 0 → e.fitness ≤ b'.fitness) ∧
        (b' = b ∨ ∃ j, ∃ hj : j < l.length, l.get ⟨j, hj⟩ = b' ∧
          b.fitness < b'.fitness ∧
          ∀ k (hk : k < l.length), k < j →
            (l.get ⟨k, hk⟩).energy > 0 →
            (l.get ⟨k, hk⟩).fitness < b'.fitness) := by
  intro l
  induction l with
  | nil =>
    intro b hb
    exact ⟨b, rfl, hb, le_refl _, by simp, Or.inl rfl⟩
  | cons e t ih =>
    intro b hb
    rw [List.foldl_cons]
    by_cases hc : e.energy > 0 ∧ e.fitness > b.fitness
    · dsimp only
      rw [if_pos hc]
      obtain ⟨b', hfold, hb', hle, hbound, hrest⟩ := ih e hc.1
      refine ⟨b', hfold, hb', le_trans (le_of_lt hc.2) hle, ?_, ?_⟩
      · intro e' he' hl'
        rcases List.mem_cons.mp he' with rfl | hmem
        · exact hle
        · exact hbound e' hmem hl'
      · right
        rcases hrest with rfl | ⟨j, hj, hget, hlt, hfirst⟩
        · exact ⟨0, Nat.succ_pos _, rfl, hc.2,
            fun k hk hk0 => absurd hk0 (Nat.not_lt_zero k)⟩
        · refine ⟨j + 1, Nat.succ_lt_succ hj, hget, lt_trans hc.2 hlt, ?_⟩
          intro k hk hkj hlk
          cases k with
          | zero => exact hlt
          | succ m =>
            exact hfirst m (Nat.lt_of_succ_lt_succ hk)
              (Nat.lt_of_succ_lt_succ hkj) hlk
    · dsimp only
      rw [if_neg hc]
      obtain ⟨b', hfold, hb', hle, hbound, hrest⟩ := ih b hb
      refine ⟨b', hfold, hb', hle, ?_, ?_⟩
      · intro e' he' hl'
        rcases List.mem_cons.mp he' with rfl | hmem
        · have hng : ¬ e'.fitness > b.fitness := fun hgt => hc ⟨hl', hgt⟩
          exact le_trans (not_lt.mp hng) hle
        · exact hbound e' hmem hl'
      · rcases hrest with rfl | ⟨j, hj, hget, hlt, hfirst⟩
        · exact Or.inl rfl
        · refine Or.inr ⟨j + 1, Nat.succ_lt_succ hj, hget, hlt, ?_⟩
          intro k hk hkj hlk
          cases k with
          | zero =>
            have hng : ¬ e.fitness > b.fitness := fun hgt => hc ⟨hlk, hgt⟩
            exact lt_of_le_of_lt (not_lt.mp hng) hlt
          | succ m =>
            exact hfirst m (Nat.lt_of_succ_lt_succ hk)
              (Nat.lt_of_succ_lt_succ hkj) hlk

theorem findBest_char :
    ∀ (l : List ConsciousEntity.Entity),
      (∀ e ∈ l, e.energy > 0 → e.fitness > -1) →
      (findBestLivingEntity l = none ↔ ∀ e ∈ l, ¬ e.energy > 0) ∧
      (∀ b, findBestLivingEntity l = some b →
        b.energy > 0 ∧
        (∀ e ∈ l, e.energy > 0 → e.fitness ≤ b.fitness) ∧
        ∃ j, ∃ hj : j < l.length, l.get ⟨j, hj⟩ = b ∧
          ∀ k (hk : k < l.length), k < j →
            (l.get ⟨k, hk⟩).energy > 0 →
            (l.get ⟨k, hk⟩).fitness < b.fitness) := by
  intro l
  induction l with
  | nil =>
    intro hf
    refine ⟨iff_of_true rfl (by simp), ?_⟩
    intro b hbm
    exact absurd hbm (by simp [findBestLivingEntity])
  | cons e t ih =>
    intro hf
    by_cases hlive : e.energy > 0
    · have hgt : e.fitness > -1 := hf e (List.mem_cons_self e t) hlive
      obtain ⟨b', hfold, hb', hle, hbound, hrest⟩ :=
        findBest_fold_some t e hlive
      have heq : findBestLivingEntity (e :: t) = some b' := by
        unfold findBestLivingEntity
        rw [List.foldl_cons]
        dsimp only
        rw [if_pos ⟨hlive, hgt⟩, hfold]
      refine ⟨?_, ?_⟩
      · rw [heq]
        exact iff_of_false (by simp)
          (fun h => h e (List.mem_cons_self e t) hlive)
      · intro b hbm
        rw [heq] at hbm
        injection hbm with hbb
        subst hbb
        refine ⟨hb', ?_, ?_⟩
        · intro e' he' hl'
          rcases List.mem_cons.mp he' with rfl | hmem
          · exact hle
          · exact hbound e' hmem hl'
        · rcases hrest with rfl | ⟨j, hj, hget, hlt, hfirst⟩
          · exact ⟨0, Nat.succ_pos _, rfl,
              fun k hk hk0 => absurd hk0 (Nat.not_lt_zero k)⟩
          · refine ⟨j + 1, Nat.succ_lt_succ hj, hget, ?_⟩
            intro k hk hkj hlk
            cases k with
            | zero => exact hlt
            | succ m =>
              exact hfirst m (Nat.lt_of_succ_lt_succ hk)
                (Nat.lt_of_succ_lt_succ hkj) hlk
    · have heq : findBestLivingEntity (e :: t) = findBestLivingEntity t := by
        unfold findBestLivingEntity
        rw [List.foldl_cons]
        dsimp only
        rw [if_neg (fun h => hlive h.1)]
      have hft : ∀ e' ∈ t, e'.energy > 0 → e'.fitness > -1 :=
        fun e' he' => hf e' (List.mem_cons_of_mem e he')
      obtain ⟨iht1, iht2⟩ := ih hft
      refine ⟨?_, ?_⟩
      · rw [heq, iht1]
        constructor
        · intro h e' he'
          rcases List.mem_cons.mp he' with rfl | hmem
          · exact hlive
          · exact h e' hmem
        · intro h e' he'
          exact h e' (List.mem_cons_of_mem e he')
      · intro b hbm
        rw [heq] at hbm
        obtain ⟨hbl, hbound, j, hj, hget, hfirst⟩ := iht2 b hbm
        refine ⟨hbl, ?_, ?_⟩
        · intro e' he' hl'
          rcases List.mem_cons.mp he' with rfl | hmem
          · exact absurd hl' hlive
          · exact hbound e' hmem hl'
        · refine ⟨j + 1, Nat.succ_lt_succ hj, hget, ?_⟩
          intro k hk hkj hlk
          cases k with
          | zero => exact absurd hlk hlive
          | succ m =>
            exact hfirst m (Nat.lt_of_succ_lt_succ hk)
              (Nat.lt_of_succ_lt_succ hkj) hlk

/-- C1: within one `update` pass, a slot whose entity is alive before its
own update but dead after it (`energy ≤ 0`) is replaced synchronously in
that same loop iteration by `handleEntityDeath`: the replacement overwrites
exactly the dead entity's slot (all other slots are untouched), it is a
mutated offspring (`reproduce`) of the living entity selected by
`findBestLivingEntity` — the living entity of maximal fitness, ties broken
by iteration order — or a fresh randomly constructed entity when no entity
is living; each such replacement increments both `generation` and
`totalDeaths` by exactly 1 and raises `bestFitness` to the dying entity's
fitness when that is a new maximum. -/
theorem death_replacement :
    (∀ (living : List ConsciousEntity.Entity) (tick : ℕ) (o : PopOracle)
        (i : ℕ) (pop : Pop) (w : World) (e : ConsciousEntity.Entity),
      pop.entities.get? i = some e → e.energy > 0 →
      (¬ (ConsciousEntity.update e w living tick (o.ent i)).1.energy > 0 →
        updateSlot living tick o i (pop, w) =
          (handleEntityDeath
            { pop with entities := (pop.entities.set i
                (ConsciousEntity.update e w living tick (o.ent i)).1) }
            i (o.death i),
           (ConsciousEntity.update e w living tick (o.ent i)).2)) ∧
      ((ConsciousEntity.update e w living tick (o.ent i)).1.energy > 0 →
        updateSlot living tick o i (pop, w) =
          ({ pop with entities := (pop.entities.set i
              (ConsciousEntity.update e w living tick (o.ent i)).1) },
           (ConsciousEntity.update e w living tick (o.ent i)).2))) ∧
    (∀ (pop : Pop) (i : ℕ) (o : DeathOracle)
        (dead : ConsciousEntity.Entity),
      pop.entities.get? i = some dead →
      (handleEntityDeath pop i o).generation = pop.generation + 1 ∧
      (handleEntityDeath pop i o).totalDeaths = pop.totalDeaths + 1 ∧
      (handleEntityDeath pop i o).entities.length = pop.entities.length ∧
      (∀ p, findBestLivingEntity pop.entities = some p →
        (handleEntityDeath pop i o).entities.get? i =
          some (ConsciousEntity.reproduce p pop.mutationRate
            pop.mutationStrength o.birth)) ∧
      (findBestLivingEntity pop.entities = none →
        (handleEntityDeath pop i o).entities.get? i =
          some (mkEntity none none none pop.gridSize o.birth)) ∧
      (∀ j, j ≠ i →
        (handleEntityDeath pop i o).entities.get? j =
          pop.entities.get? j) ∧
      (handleEntityDeath pop i o).bestFitness =
        (if dead.fitness > pop.bestFitness then dead.fitness
         else pop.bestFitness)) ∧
    (∀ (l : List ConsciousEntity.Entity),
      (∀ e ∈ l, e.energy > 0 → e.fitness > -1) →
      (findBestLivingEntity l = none ↔ ∀ e ∈ l, ¬ e.energy > 0) ∧
      (∀ b, findBestLivingEntity l = some b →
        b.energy > 0 ∧
        (∀ e ∈ l, e.energy > 0 → e.fitness ≤ b.fitness) ∧
        ∃ j, ∃ hj : j < l.length, l.get ⟨j, hj⟩ = b ∧
          ∀ k (hk : k < l.length), k < j →
            (l.get ⟨k, hk⟩).energy > 0 →
            (l.get ⟨k, hk⟩).fitness < b.fitness)) ∧
    (∀ (pop : Pop) (w : World) (tick : ℕ) (o : PopOracle),
      update pop w tick o =
        updateAux (pop.entities.filter (fun e => e.energy > 0)) tick o
          pop.entities.length 0 (pop, w)) ∧
    (∀ (living : List ConsciousEntity.Entity) (tick : ℕ) (o : PopOracle)
        (fuel i : ℕ) (st : Pop × World),
      updateAux living tick o (fuel + 1) i st =
        updateAux living tick o fuel (i + 1) (updateSlot living tick o i st)) := by
  refine ⟨?_, ?_, findBest_char, fun pop w tick o => rfl,
    fun living tick o fuel i st => rfl⟩
  · intro living tick o i pop w e hget he
    constructor
    · intro hdead
      unfold updateSlot
      dsimp only
      rw [hget]
      dsimp only
      rw [if_neg (not_le.mpr he), if_neg hdead]
    · intro halive
      unfold updateSlot
      dsimp only
      rw [hget]
      dsimp only
      rw [if_neg (not_le.mpr he), if_pos halive]
  · intro pop i o dead hget
    have hi : i < pop.entities.length := by
      by_contra hcon
      rw [List.get?_eq_none.mpr (le_of_not_lt hcon)] at hget
      cases hget
    unfold handleEntityDeath
    rw [hget]
    dsimp only
    split_ifs with hbf
    · dsimp only
      refine ⟨rfl, rfl, by simp, ?_, ?_, ?_, rfl⟩
      · intro p hp
        rw [hp]
        simp [List.getElem?_set_self', List.getElem?_eq_getElem hi]
      · intro hp
        rw [hp]
        simp [List.getElem?_set_self', List.getElem?_eq_getElem hi]
      · intro j hj
        simp [List.getElem?_set_ne (Ne.symm hj)]
    · dsimp only
      refine ⟨rfl, rfl, by simp, ?_, ?_, ?_, rfl⟩
      · intro p hp
        rw [hp]
        simp [List.getElem?_set_self', List.getElem?_eq_getElem hi]
      · intro hp
        rw [hp]
        simp [List.getElem?_set_self', List.getElem?_eq_getElem hi]
      · intro j hj
        simp [List.getElem?_set_ne (Ne.symm hj)]

/-- A birth oracle with deterministic draws, for the C1 witness. -/
def zeroBirth : BirthOracle :=
  { posX := 0, posY := 0,
    gauss := { wGauss := fun _ _ _ => 0, bGauss := fun _ _ => 0 },
    mutO := { wCoin := fun _ _ _ => 1, wNoise := fun _ _ _ => 0,
              bCoin := fun _ _ => 1, bNoise := fun _ _ => 0 },
    id := 2 }

def dOrW : DeathOracle := { birth := zeroBirth, cloneB := zeroBirth }

def pOrW : PopOracle := { ent := fun _ => cxOracle, death := fun _ => dOrW }

/-- An entity that dies this tick: energy 0.5 on the empty 1×1 world, so the
0.5 passive decay leaves it at exactly 0. -/
def eDying : ConsciousEntity.Entity := { cxEntity with energy := 0.5 }

/-- A living high-fitness entity. -/
def eAlive : ConsciousEntity.Entity :=
  { cxEntity with energy := 50, fitness := 7, id := 1 }

/-- A two-entity population whose slot-0 entity dies this tick. -/
def popW : Pop :=
  { populationSize := 2, gridSize := 1, entities := [eDying, eAlive],
    generation := 0, totalDeaths := 0, bestFitness := 0, allTimeBest := none,
    mutationRate := 0.1, mutationStrength := 0.1 }

theorem outcomesPhase_eDying_energy :
    (ConsciousEntity.outcomesPhase eDying tinyWorld 0).1.energy = 0 := by
  unfold ConsciousEntity.outcomesPhase
  dsimp only
  rw [show consumeEnergy tinyWorld eDying.x eDying.y = ((0 : ℝ), tinyWorld)
    from rfl]
  dsimp only
  rw [if_neg (show ¬ (0 : ℝ) > 0 by norm_num)]
  rw [show eDying.energy = 0.5 from rfl]
  split_ifs <;> norm_num

/-- Witness for C1 on the concrete population `popW`: the slot-0 entity is
alive (energy 0.5), its update leaves it dead, `updateSlot` replaces it
synchronously via `handleEntityDeath`, which bumps `generation` and
`totalDeaths` by 1 and installs an offspring of the best living entity at
slot 0. -/
theorem death_replacement_witness :
    (eDying.energy > 0 ∧
     ¬ (ConsciousEntity.update eDying tinyWorld [] 0
        (pOrW.ent 0)).1.energy > 0 ∧
     updateSlot [] 0 pOrW 0 (popW, tinyWorld) =
       (handleEntityDeath
         { popW with entities := (popW.entities.set 0
             (ConsciousEntity.update eDying tinyWorld [] 0 (pOrW.ent 0)).1) }
         0 (pOrW.death 0),
        (ConsciousEntity.update eDying tinyWorld [] 0 (pOrW.ent 0)).2)) ∧
    ((handleEntityDeath popW 0 dOrW).generation = popW.generation + 1 ∧
     (handleEntityDeath popW 0 dOrW).totalDeaths = popW.totalDeaths + 1 ∧
     ∀ p, findBestLivingEntity popW.entities = some p →
       (handleEntityDeath popW 0 dOrW).entities.get? 0 =
         some (ConsciousEntity.reproduce p popW.mutationRate
           popW.mutationStrength dOrW.birth)) ∧
    ((∀ e ∈ popW.entities, e.energy > 0 → e.fitness > -1) ∧
     ∀ b, findBestLivingEntity popW.entities = some b →
       b.energy > 0 ∧ ∀ e ∈ popW.entities, e.energy > 0 →
         e.fitness ≤ b.fitness) := by
  obtain ⟨ha, hb, hc, _, _⟩ := death_replacement
  have hget0 : popW.entities.get? 0 = some eDying := rfl
  have he0 : eDying.energy > 0 := by
    rw [show eDying.energy = 0.5 from rfl]
    norm_num
  have hdead : ¬ (ConsciousEntity.update eDying tinyWorld [] 0
      (pOrW.ent 0)).1.energy > 0 := by
    rw [ConsciousEntity.update_energy, outcomesPhase_eDying_energy]
    norm_num
  have hfit : ∀ e ∈ popW.entities, e.energy > 0 → e.fitness > -1 := by
    intro e he _
    rw [show popW.entities = [eDying, eAlive] from rfl] at he
    rcases List.mem_cons.mp he with rfl | he2
    · rw [show eDying.fitness = 0 from rfl]
      norm_num
    · rcases List.mem_cons.mp he2 with rfl | he3
      · rw [show eAlive.fitness = 7 from rfl]
        norm_num
      · exact absurd he3 (List.not_mem_nil e)
  refine ⟨⟨he0, hdead,
    (ha [] 0 pOrW 0 popW tinyWorld eDying hget0 he0).1 hdead⟩, ?_, ?_⟩
  · obtain ⟨h1, h2, _, h4, _, _, _⟩ := hb popW 0 dOrW eDying hget0
    exact ⟨h1, h2, h4⟩
  · obtain ⟨_, h2⟩ := hc popW.entities hfit
    exact ⟨hfit, fun b hbm => ⟨(h2 b hbm).1, (h2 b hbm).2.1⟩⟩

end PopulationManager

end CWorld
